import Mathlib

/-!
Verification development for the comfy-ez-installer configuration core:
the manifest validator (`scripts/validate_config.py`), the YAML reference
resolver / merge engine (embedded in the installer and replicated verbatim
in `tests/test_yaml_processing.py` and `tests/test_workflow_references.py`),
and the model-locator parsing of `scripts/download_civitai_models.py`.

Parsed YAML documents are modelled by the inductive type `Yaml`; the Python
code is embedded function by function, with Python's dynamic-typing
behaviour (truthiness, `dict.get`, iteration over non-lists, `str()`
conversion, `TypeError` / `AttributeError` on unsupported operations)
made explicit through the helpers below.
-/

/-- A parsed YAML document (the value shapes produced by `yaml.safe_load`
that the scripts manipulate; mapping keys are restricted to strings, the
only key shape the configuration format uses). `null` doubles as Python's
`None`. -/
inductive Yaml where
  | null : Yaml
  | bool (b : Bool) : Yaml
  | int (n : Int) : Yaml
  | str (s : String) : Yaml
  | list (items : List Yaml) : Yaml
  | map (entries : List (String × Yaml)) : Yaml

/-- A Python exception escaping the embedded code. -/
inductive PyErr where
  | typeError : PyErr
  | attributeError : PyErr
deriving DecidableEq, Repr

/-- Result of running a piece of embedded Python code: either a value or an
uncaught exception. -/
abbrev PyResult (α : Type) := Except PyErr α

/-- Python truthiness of a value (`bool(x)`). -/
def pyTruthy : Yaml → Bool
  | .null => false
  | .bool b => b
  | .int n => n != 0
  | .str s => s ≠ ""
  | .list l => !l.isEmpty
  | .map m => !m.isEmpty

/-- `x or y` for Python values: `x` if truthy, else `y`. -/
def pyOrY (x y : Yaml) : Yaml := if pyTruthy x then x else y

/-- First value bound to `k` in a mapping's entry list (Python `dict`
lookup; parsed YAML mappings have unique keys). -/
def mapGet? (m : List (String × Yaml)) (k : String) : Option Yaml :=
  match m with
  | [] => none
  | (k', v) :: rest => if k' = k then some v else mapGet? rest k

/-- `d.get(k, default)` on a mapping's entry list. -/
def mapGetD (m : List (String × Yaml)) (k : String) (dflt : Yaml) : Yaml :=
  (mapGet? m k).getD dflt

/-- `k in d` on a mapping's entry list. -/
def mapHasKey (m : List (String × Yaml)) (k : String) : Bool :=
  (mapGet? m k).isSome

/-- `v.get(k, default)`: mapping lookup, `AttributeError` when `v` is not a
mapping (Python: only `dict` has `.get`). -/
def pyGetA (v : Yaml) (k : String) (dflt : Yaml) : PyResult Yaml :=
  match v with
  | .map m => .ok (mapGetD m k dflt)
  | _ => .error .attributeError

/-- `v.items()` keys/values, `AttributeError` when `v` is not a mapping. -/
def pyItemsE (v : Yaml) : PyResult (List (String × Yaml)) :=
  match v with
  | .map m => .ok m
  | _ => .error .attributeError

/-- `for x in v`: mappings yield their keys, lists their elements, strings
their characters (as one-character strings); other values raise
`TypeError`. -/
def pyIterE (v : Yaml) : PyResult (List Yaml) :=
  match v with
  | .map m => .ok (m.map fun kv => .str kv.1)
  | .list l => .ok l
  | .str s => .ok (s.data.map fun c => .str (String.mk [c]))
  | _ => .error .typeError

mutual
/-- Python `repr()` of a value (string contents are rendered between plain
single quotes, without escape sequences, which the configuration data never
needs). -/
def pyRepr : Yaml → String
  | .null => "None"
  | .bool true => "True"
  | .bool false => "False"
  | .int n => toString n
  | .str s => "\x27" ++ s ++ "\x27"
  | .list l => "[" ++ pyReprList l ++ "]"
  | .map m => "\x7b" ++ pyReprMap m ++ "\x7d"

/-- Comma-separated `repr`s of a list's elements. -/
def pyReprList : List Yaml → String
  | [] => ""
  | [x] => pyRepr x
  | x :: xs => pyRepr x ++ ", " ++ pyReprList xs

/-- Comma-separated `key: value` `repr`s of a mapping's entries. -/
def pyReprMap : List (String × Yaml) → String
  | [] => ""
  | [(k, v)] => "\x27" ++ k ++ "\x27: " ++ pyRepr v
  | (k, v) :: rest => "\x27" ++ k ++ "\x27: " ++ pyRepr v ++ ", " ++ pyReprMap rest
end

/-- Python `str()` of a value: strings unchanged, everything else via
`repr`. -/
def pyStr : Yaml → String
  | .str s => s
  | v => pyRepr v

mutual
/-- Python `==` on values: `None`, booleans and numbers compare across
`bool`/`int` (`True == 1`), strings by content, lists elementwise, and
mappings as CPython does — equal length plus every entry of the first
present and pointwise-equal in the second. -/
def pyEq : Yaml → Yaml → Bool
  | .null, .null => true
  | .bool a, .bool b => a == b
  | .bool a, .int n => (if a then (1 : Int) else 0) == n
  | .int n, .bool a => n == (if a then 1 else 0)
  | .int m, .int n => m == n
  | .str a, .str b => a == b
  | .list a, .list b => pyEqList a b
  | .map a, .map b => a.length == b.length && pyEqMap a b
  | _, _ => false

/-- Elementwise Python `==` on two lists. -/
def pyEqList : List Yaml → List Yaml → Bool
  | [], [] => true
  | x :: xs, y :: ys => pyEq x y && pyEqList xs ys
  | _, _ => false

/-- Every entry of the first mapping has a `pyEq`-equal value in the
second. -/
def pyEqMap : List (String × Yaml) → List (String × Yaml) → Bool
  | [], _ => true
  | (k, v) :: rest, b =>
      (match mapGet? b k with
       | some v2 => pyEq v v2
       | none => false) && pyEqMap rest b
end

/-- Whether a value is hashable in Python (lists and dicts are not, so
putting one in a `set` or using it as a `dict` key raises `TypeError`). -/
def pyHashable : Yaml → Bool
  | .list _ => false
  | .map _ => false
  | _ => true

/-- `s.add(v)` on a Python set, modelled as a duplicate-free list; only
membership in the result is ever observed. -/
def pySetAdd (s : List Yaml) (v : Yaml) : PyResult (List Yaml) :=
  if pyHashable v then .ok (if s.any (pyEq v) then s else s ++ [v])
  else .error .typeError

/-- `v in s` on a Python set. -/
def pySetMem (s : List Yaml) (v : Yaml) : PyResult Bool :=
  if pyHashable v then .ok (s.any (pyEq v)) else .error .typeError

/-- Python `s.startswith(pre)`. -/
def pyStartswith (s pre : String) : Bool :=
  pre.data.isPrefixOf s.data

/-- Python code-point slicing `s[n:]`. -/
def pySliceFrom (s : String) (n : Nat) : String :=
  String.mk (s.data.drop n)

/-- Split a character list at every occurrence of `sep` (always returns at
least one piece, like Python `str.split` with an explicit separator). -/
def pySplitChar (sep : Char) : List Char → List (List Char)
  | [] => [[]]
  | c :: rest =>
      match pySplitChar sep rest with
      | [] => []
      | w :: ws => if c = sep then [] :: w :: ws else (c :: w) :: ws

/-- Python `s.split(sep)` for the single-character separators the scripts
use (`":"`, `","`, `"@"`). -/
def pySplit (s : String) (sep : Char) : List String :=
  (pySplitChar sep s.data).map String.mk

/-- The pieces of a character list around its first occurrence of `sep`
(`none` when absent). -/
def breakAtChar (sep : Char) : List Char → List Char × Option (List Char)
  | [] => ([], none)
  | c :: rest =>
      if c = sep then ([], some rest)
      else
        match breakAtChar sep rest with
        | (pre, post) => (c :: pre, post)

/-- Python `s.split(sep, 1)` as a pair, `none` when the separator is
absent. -/
def pySplitOnce (s : String) (sep : Char) : String × Option String :=
  match breakAtChar sep s.data with
  | (pre, post) => (String.mk pre, post.map String.mk)

/-- Python `s.strip()` (over the ASCII whitespace the manifests can
contain). -/
def pyStrip (s : String) : String :=
  String.mk (((s.data.dropWhile Char.isWhitespace).reverse.dropWhile
    Char.isWhitespace).reverse)

/-- Python `s.upper()` (the manifests use ASCII category names). -/
def pyUpper (s : String) : String :=
  String.mk (s.data.map Char.toUpper)

/-- Characters `shlex.quote` leaves unquoted (ASCII word characters and
`@ % + = : , . / -`). -/
def shlexSafe (c : Char) : Bool :=
  c.isAlphanum || c = '_' || c = '@' || c = '%' || c = '+' || c = '=' ||
  c = ':' || c = ',' || c = '.' || c = '/' || c = '-'

/-- Python `shlex.quote`: return the string unchanged when it is non-empty
and all-safe, else wrap it in single quotes (embedded single quotes become
`'"'"'`). -/
def shlexQuote (s : String) : String :=
  if s = "" then "\x27\x27"
  else if s.data.all shlexSafe then s
  else "\x27" ++ s.replace "\x27" "\x27\"\x27\"\x27" ++ "\x27"

/-! ## Manifest validator: `scripts/validate_config.py` -/

/-- `k' = k` assoc update in place, else append (Python `dict` item
assignment). -/
def upsertAssoc {α : Type} : List (String × α) → String → α → List (String × α)
  | [], k, v => [(k, v)]
  | (k', v') :: rest, k, v =>
      if k' = k then (k, v) :: rest else (k', v') :: upsertAssoc rest k v

/-- Assoc-list lookup for values of any type (Python `dict` lookup / `in`
for the auxiliary dictionaries the scripts build). -/
def lookupAssoc {α : Type} : List (String × α) → String → Option α
  | [], _ => none
  | (k', v) :: rest, k => if k' = k then some v else lookupAssoc rest k

/-- Allowed top-level manifest keys (validate_config.py, line 35). -/
def allowed_top : List String := ["install", "models", "custom_nodes", "workflows"]

/-- `Unknown top-level key` violations (lines 36–38). -/
def topLevelKeyErrors (data : List (String × Yaml)) : List String :=
  data.filterMap fun kv =>
    if allowed_top.contains kv.1 then none
    else some ("Unknown top-level key: " ++ kv.1)

/-- `install` section checks (lines 40–48). -/
def installErrors (data : List (String × Yaml)) : List String :=
  let install := pyOrY (mapGetD data "install" (.map [])) (.map [])
  match install with
  | .map ikvs =>
      (ikvs.filterMap fun kv =>
        if kv.1 = "comfy_dir" ∨ kv.1 = "cpu_only" then none
        else some ("install: unknown key " ++ kv.1)) ++
      (match mapGet? ikvs "cpu_only" with
       | some (.bool _) => []
       | some _ => ["install.cpu_only must be boolean"]
       | none => [])
  | _ => ["install section must be a mapping"]

/-- Checks on one element of a model-entry list; the identical source block
appears once for global categories (lines 60–75) and once for workflow
categories (lines 109–130), differing only in the message prefix, which is
passed in here. -/
def modelItemErrors (pre : String) (idx : Nat) (item : Yaml) : List String :=
  match item with
  | .str _ => []
  | .map ik =>
      (if mapHasKey ik "urn" || mapHasKey ik "url" || mapHasKey ik "id" ||
          mapHasKey ik "ref" then []
       else [pre ++ "[" ++ toString idx ++
             "] must have \x27urn\x27, \x27url\x27, \x27id\x27, or \x27ref\x27 field"]) ++
      (if mapHasKey ik "ref" &&
          (mapHasKey ik "urn" || mapHasKey ik "url" || mapHasKey ik "id") then
        [pre ++ "[" ++ toString idx ++
         "] cannot have both \x27ref\x27 and direct content fields"]
       else [])
  | _ => [pre ++ "[" ++ toString idx ++ "] must be str or mapping"]

/-- Checks on one category value of a `models` mapping (global lines 57–75,
workflow lines 106–130). -/
def modelListErrors (pre : String) (v : Yaml) : List String :=
  match v with
  | .list items => items.enum.flatMap fun p => modelItemErrors pre p.1 p.2
  | _ => [pre ++ " must be a list"]

/-- Global `models` section checks (lines 50–75). -/
def modelsErrors (data : List (String × Yaml)) : List String :=
  let models := pyOrY (mapGetD data "models" (.map [])) (.map [])
  match models with
  | .map mkvs =>
      mkvs.flatMap fun kv =>
        if kv.1 = "dest_dir" ∨ kv.1 = "source_dir" then []
        else modelListErrors ("models." ++ kv.1) kv.2
  | _ => ["models section must be a mapping"]

/-- Checks on one element of the global `custom_nodes` list (lines 81–87). -/
def customNodeItemErrors (idx : Nat) (node : Yaml) : List String :=
  match node with
  | .map nk =>
      if mapHasKey nk "url" || mapHasKey nk "id" then []
      else ["custom_nodes[" ++ toString idx ++ "] missing \x27url\x27 or \x27id\x27 field"]
  | _ => ["custom_nodes[" ++ toString idx ++ "] must be mapping with \x27url\x27 or \x27id\x27"]

/-- Global `custom_nodes` section checks (lines 77–87): a truthy non-list
is one violation; otherwise the (possibly `or []`-coerced) list is
scanned. -/
def customNodesErrors (data : List (String × Yaml)) : List String :=
  match mapGetD data "custom_nodes" (.list []) with
  | .list l => l.enum.flatMap fun p => customNodeItemErrors p.1 p.2
  | v => if pyTruthy v then ["custom_nodes must be a list"] else []

/-- A workflow's nested `models` section (lines 100–130): mapping →
per-category checks, truthy non-mapping → one violation, falsy
non-mapping (e.g. an explicit `null`) → the script calls `.items()` on it
and dies with `AttributeError`. -/
def wfModelsSectionErrors (idx : Nat) (wf_models : Yaml) : PyResult (List String) :=
  match wf_models with
  | .map mk =>
      .ok (mk.flatMap fun kv =>
        modelListErrors ("workflows[" ++ toString idx ++ "].models." ++ kv.1) kv.2)
  | v =>
      if pyTruthy v then .ok ["workflows[" ++ toString idx ++ "].models must be a mapping"]
      else .error .attributeError

/-- Checks on one element of a workflow's `custom_nodes` list
(lines 137–152). -/
def wfNodeItemErrors (idx node_idx : Nat) (node : Yaml) : List String :=
  match node with
  | .map nk =>
      (if mapHasKey nk "url" || mapHasKey nk "ref" then []
       else ["workflows[" ++ toString idx ++ "].custom_nodes[" ++ toString node_idx ++
             "] missing \x27url\x27 or \x27ref\x27 field"]) ++
      (if mapHasKey nk "ref" && mapHasKey nk "url" then
        ["workflows[" ++ toString idx ++ "].custom_nodes[" ++ toString node_idx ++
         "] cannot have both \x27ref\x27 and \x27url\x27 fields"]
       else [])
  | _ => ["workflows[" ++ toString idx ++ "].custom_nodes[" ++ toString node_idx ++
          "] must be mapping with \x27url\x27 or \x27ref\x27"]

/-- A workflow's nested `custom_nodes` section (lines 132–152). -/
def wfNodesSectionErrors (idx : Nat) (wf_nodes : Yaml) : List String :=
  match wf_nodes with
  | .list l => l.enum.flatMap fun p => wfNodeItemErrors idx p.1 p.2
  | v =>
      if pyTruthy v then ["workflows[" ++ toString idx ++ "].custom_nodes must be a list"]
      else []

/-- Checks on one element of the `workflows` list (lines 93–152). -/
def workflowErrors (idx : Nat) (wf : Yaml) : PyResult (List String) :=
  match wf with
  | .map wkvs => do
      let nameErrs :=
        if mapHasKey wkvs "name" then []
        else ["workflows[" ++ toString idx ++ "] missing \x27name\x27 field"]
      let modelErrs ← wfModelsSectionErrors idx (mapGetD wkvs "models" (.map []))
      let nodeErrs := wfNodesSectionErrors idx (mapGetD wkvs "custom_nodes" (.list []))
      pure (nameErrs ++ modelErrs ++ nodeErrs)
  | _ => .ok ["workflows[" ++ toString idx ++ "] must be mapping"]

/-- `workflows` section checks (lines 89–152). -/
def workflowsErrors (data : List (String × Yaml)) : PyResult (List String) :=
  match mapGetD data "workflows" (.list []) with
  | .list l =>
      l.enum.foldlM (fun acc p => do
        let es ← workflowErrors p.1 p.2
        pure (acc ++ es)) []
  | v => if pyTruthy v then .ok ["workflows must be a list"] else .ok []

/-- Ids collected from one global model category (cross-reference pass,
lines 164–167): scan the `or []`-coerced value, adding `item["id"]` of
every mapping element to a set. -/
def addCategoryIds (lst : Yaml) : PyResult (List Yaml) := do
  let items ← pyIterE (pyOrY lst (.list []))
  items.foldlM (fun s item =>
    match item with
    | .map ik =>
        match mapGet? ik "id" with
        | some v => pySetAdd s v
        | none => pure s
    | _ => pure s) []

/-- `available_ids` (lines 159–167): per-category id sets of the global
`models` mapping, skipping `dest_dir` / `source_dir`. -/
def buildAvailableIds (models : Yaml) : PyResult (List (String × List Yaml)) := do
  let mk ← pyItemsE models
  mk.foldlM (fun acc kv =>
    if kv.1 = "dest_dir" ∨ kv.1 = "source_dir" then pure acc
    else do
      let ids ← addCategoryIds kv.2
      pure (upsertAssoc acc kv.1 ids)) []

/-- `available_custom_node_ids` (lines 169–173). -/
def buildAvailableCustomNodeIds (custom_nodes : Yaml) : PyResult (List Yaml) := do
  let items ← pyIterE custom_nodes
  items.foldlM (fun s node =>
    match node with
    | .map nk =>
        match mapGet? nk "id" with
        | some v => pySetAdd s v
        | none => pure s
    | _ => pure s) []

/-- Cross-reference check of one workflow's model refs (lines 179–187);
note the short-circuit: when the category has no id set at all, the ref
value is never hashed. -/
def wfModelRefErrors (wf_idx : Nat) (avail : List (String × List Yaml))
    (wf_models : Yaml) : PyResult (List String) := do
  let mk ← (match pyOrY wf_models (.map []) with
            | .map l => .ok l
            | _ => .error .attributeError)
  mk.foldlM (fun acc kv => do
    let items ← pyIterE (pyOrY kv.2 (.list []))
    let errs ← items.enum.foldlM (fun acc2 p =>
      match p.2 with
      | .map ik =>
          match mapGet? ik "ref" with
          | some ref_id => do
              let missing ← (match lookupAssoc avail kv.1 with
                             | none => pure true
                             | some ids => do
                                 let mem ← pySetMem ids ref_id
                                 pure (!mem))
              if missing then
                pure (acc2 ++ ["workflows[" ++ toString wf_idx ++ "].models." ++ kv.1 ++
                  "[" ++ toString p.1 ++ "] ref \x27" ++ pyStr ref_id ++
                  "\x27 not found in models." ++ kv.1])
              else pure acc2
          | none => pure acc2
      | _ => pure acc2) []
    pure (acc ++ errs)) []

/-- Cross-reference check of one workflow's custom-node refs
(lines 189–197); here the membership test is always evaluated. -/
def wfNodeRefErrors (wf_idx : Nat) (availCN : List Yaml)
    (wf_nodes : Yaml) : PyResult (List String) := do
  let items ← pyIterE (pyOrY wf_nodes (.list []))
  items.enum.foldlM (fun acc p =>
    match p.2 with
    | .map nk =>
        match mapGet? nk "ref" with
        | some ref_id => do
            let mem ← pySetMem availCN ref_id
            if mem then pure acc
            else
              pure (acc ++ ["workflows[" ++ toString wf_idx ++ "].custom_nodes[" ++
                toString p.1 ++ "] ref \x27" ++ pyStr ref_id ++
                "\x27 not found in global custom_nodes"])
        | none => pure acc
    | _ => pure acc) []

/-- The whole cross-reference pass (lines 154–197). -/
def crossRefErrors (data : List (String × Yaml)) : PyResult (List String) := do
  let models := pyOrY (mapGetD data "models" (.map [])) (.map [])
  let custom_nodes := pyOrY (mapGetD data "custom_nodes" (.list [])) (.list [])
  let workflows := pyOrY (mapGetD data "workflows" (.list [])) (.list [])
  let available_ids ← buildAvailableIds models
  let available_custom_node_ids ← buildAvailableCustomNodeIds custom_nodes
  let wfl ← pyIterE workflows
  wfl.enum.foldlM (fun acc p =>
    match p.2 with
    | .map wkvs => do
        let mErrs ← wfModelRefErrors p.1 available_ids (mapGetD wkvs "models" (.map []))
        let nErrs ← wfNodeRefErrors p.1 available_custom_node_ids
          (mapGetD wkvs "custom_nodes" (.list []))
        pure (acc ++ mErrs ++ nErrs)
    | _ => pure acc) []

/-- The whole validation pass of validate_config.py over a loaded document
(lines 32–197): the accumulated violation list, or the uncaught exception
when the document's shape crashes the script. A non-mapping root dies
before any violation is reported: a list or string root survives the
top-level key loop only to hit `data.get` (`AttributeError`, output
discarded); other scalars fail already at `for key in data`
(`TypeError`). -/
def validateData (data : Yaml) : PyResult (List String) :=
  match data with
  | .map kvs => do
      let e5 ← workflowsErrors kvs
      let e6 ← crossRefErrors kvs
      pure (topLevelKeyErrors kvs ++ installErrors kvs ++ modelsErrors kvs ++
            customNodesErrors kvs ++ e5 ++ e6)
  | .list _ => .error .attributeError
  | .str _ => .error .attributeError
  | _ => .error .typeError

/-- How loading the manifest source went, as seen by the script prologue of
validate_config.py (lines 21–30). -/
inductive LoadResult where
  | unreadable : LoadResult
  | parseError : LoadResult
  | parsed (d : Yaml) : LoadResult

/-- Observable outcome of one run of validate_config.py. -/
inductive ExitOutcome where
  | exited (code : Nat) : ExitOutcome
  | uncaught (e : PyErr) : ExitOutcome
deriving DecidableEq

/-- End-to-end behaviour of validate_config.py: exit 2 when the source path
is missing or unreadable (lines 22–24), exit 1 with a parse message on
`yaml.YAMLError` (lines 26–30), then — after the `or {}` coercion of
line 27 — exit 1 when violations were collected, exit 0 on success
(lines 199–205), and an uncaught traceback when the loaded document
crashes the script. -/
def runValidateConfig : LoadResult → ExitOutcome
  | .unreadable => .exited 2
  | .parseError => .exited 1
  | .parsed d =>
      match validateData (pyOrY d (.map [])) with
      | .error e => .uncaught e
      | .ok errs => .exited (if errs.isEmpty then 0 else 1)

/-! ## Reference resolver / merge engine: the installer's YAML processing
code, embedded verbatim in `tests/test_yaml_processing.py`
(`run_yaml_processor`, exec string lines 60–182) -/

/-- Python `+` as the category merge uses it: sequence concatenation or
numeric addition, `TypeError` on mixed shapes. -/
def pyAddE : Yaml → Yaml → PyResult Yaml
  | .list a, .list b => .ok (.list (a ++ b))
  | .str a, .str b => .ok (.str (a ++ b))
  | .int a, .int b => .ok (.int (a + b))
  | .int a, .bool b => .ok (.int (a + (if b then 1 else 0)))
  | .bool a, .int b => .ok (.int ((if a then 1 else 0) + b))
  | .bool a, .bool b => .ok (.int ((if a then 1 else 0) + (if b then 1 else 0)))
  | _, _ => .error .typeError

/-- Python `sep.join(xs)`: every element must be a `str`, else
`TypeError`. -/
def pyJoinE (sep : String) (xs : List Yaml) : PyResult String := do
  let strs ← xs.mapM (fun x =>
    match x with
    | .str s => Except.ok s
    | _ => Except.error PyErr.typeError)
  pure (String.intercalate sep strs)

/-- `export_var` (exec lines 70–73): skip `None`, else print
`name=shlex.quote(str(value))`. -/
def export_var (name : String) (value : Yaml) : List (String × String) :=
  match value with
  | .null => []
  | v => [(name, shlexQuote (pyStr v))]

/-- The locator of a mapping entry: `item.get("urn") or item.get("url") or
item.get("id")` — the precedence expression shared by `extract_ids`
(exec line 96), `resolve_refs` (exec line 115) and
`simulate_yaml_processing` (test_workflow_references.py lines 178
and 183). -/
def locatorChain (ik : List (String × Yaml)) : Yaml :=
  pyOrY (mapGetD ik "urn" .null) (pyOrY (mapGetD ik "url" .null) (mapGetD ik "id" .null))

/-- `extract_ids` (exec lines 85–101): `None` for a non-list or empty
list; mapping entries yield a `REF:` marker (always truthy) or their
locator when truthy, truthy non-mapping entries their `str()`; the
collected strings are comma-joined, `None` when nothing was collected. -/
def extract_ids (lst : Option (List Yaml)) : Option String :=
  match lst with
  | none => none
  | some l =>
      if l.isEmpty then none
      else
        let out := l.filterMap fun item =>
          match item with
          | .map ik =>
              if mapHasKey ik "ref" then
                some ("REF:" ++ pyStr (mapGetD ik "ref" .null))
              else
                let val := locatorChain ik
                if pyTruthy val then some (pyStr val) else none
          | _ => if pyTruthy item then some (pyStr item) else none
        if out.isEmpty then none else some (String.intercalate "," out)

/-- One global-category scan of `resolve_refs` (exec lines 113–119): the
first id-matching mapping entry with a truthy locator wins (the `break`
sits inside `if actual:`, so an id match without a usable locator keeps
scanning). -/
def findRefLocator (ref_id : String) (global_cat : List Yaml) : Option String :=
  match global_cat with
  | [] => none
  | gi :: rest =>
      match gi with
      | .map gk =>
          if pyEq (mapGetD gk "id" .null) (.str ref_id) ∧ pyTruthy (locatorChain gk)
          then some (pyStr (locatorChain gk))
          else findRefLocator ref_id rest
      | _ => findRefLocator ref_id rest

/-- `resolve_refs` (exec lines 103–124): split the comma-joined string,
strip each piece, pass plain pieces through, resolve `REF:` markers
against the global category — a ref that resolves to nothing contributes
nothing and emits a `WARNING_REF_NOT_FOUND` stderr line. Returns the
rejoined string (`None` when nothing survived) and the warning lines. -/
def resolve_refs (category : String) (items : Option String)
    (global_models : List (String × Yaml)) : PyResult (Option String × List String) := do
  let raw := match items with
    | some s => s
    | none => ""
  let acc ← (pySplit raw ',').foldlM
    (fun (acc : List String × List String) piece => do
      let item_str := pyStrip piece
      if item_str = "" then pure acc
      else if pyStartswith item_str "REF:" then do
        let ref_id := pySliceFrom item_str 4
        let global_cat := (lookupAssoc global_models category).getD (.list [])
        let gl ← pyIterE global_cat
        match findRefLocator ref_id gl with
        | some loc => pure (acc.1 ++ [loc], acc.2)
        | none =>
            pure (acc.1, acc.2 ++ ["WARNING_REF_NOT_FOUND:" ++ ref_id ++ ":" ++ category])
      else pure (acc.1 ++ [item_str], acc.2))
    ([], [])
  pure (if acc.1.isEmpty then none else some (String.intercalate "," acc.1), acc.2)

/-- Selection loop (exec lines 133–143): the first workflow mapping whose
`name` equals the selector. -/
def findWorkflow (wl : List Yaml) (selected : String) : Option Yaml :=
  wl.find? fun wf =>
    match wf with
    | .map wk => pyEq (mapGetD wk "name" .null) (.str selected)
    | _ => false

/-- The global model categories with `lst or []` applied, skipping
`dest_dir` / `source_dir` — the identical block builds `all_models`'s seed
(exec lines 148–151) and `global_models_by_cat` (exec lines 160–163), and
reappears at lines 146–163 of test_workflow_references.py. -/
def globalCatsOf (mEntries : List (String × Yaml)) : List (String × Yaml) :=
  mEntries.filterMap fun kv =>
    if kv.1 = "dest_dir" ∨ kv.1 = "source_dir" then none
    else some (kv.1, pyOrY kv.2 (.list []))

/-- Merge of workflow categories into the global ones (exec lines 153–157
and test_workflow_references.py lines 152–157): existing categories get
the overlay list appended (`+`, a `TypeError` on non-sequences), new ones
are added at the end. -/
def mergeAllModels (globalCats workflow_models : List (String × Yaml)) :
    PyResult (List (String × Yaml)) :=
  workflow_models.foldlM
    (fun acc kv =>
      match lookupAssoc acc kv.1 with
      | some existing => do
          let merged ← pyAddE existing (pyOrY kv.2 (.list []))
          pure (upsertAssoc acc kv.1 merged)
      | none => pure (acc ++ [(kv.1, pyOrY kv.2 (.list []))]))
    globalCats

/-- The category export loop of the installer pass (exec lines 165–170):
one `CIVITAI_<CAT>` line per category whose extraction and ref-resolution
produced a truthy string, plus the accumulated warning lines. -/
def processorCatLines (global_models_by_cat all_models : List (String × Yaml)) :
    PyResult (List (String × String) × List String) :=
  all_models.foldlM
    (fun (acc : List (String × String) × List String) kv => do
      let ids0 := extract_ids (match kv.2 with | .list l => some l | _ => none)
      let res ← resolve_refs kv.1 ids0 global_models_by_cat
      match res.1 with
      | some s =>
          if s ≠ "" then
            pure (acc.1 ++ export_var ("CIVITAI_" ++ pyUpper kv.1) (.str s), acc.2 ++ res.2)
          else pure (acc.1, acc.2 ++ res.2)
      | none => pure (acc.1, acc.2 ++ res.2))
    ([], [])

/-- Workflow selection of the installer pass (exec lines 126–145): the
selected workflow's models mapping, its url-bearing custom-node values and
the stderr note; all empty when `WORKFLOW` is unset or empty. -/
def procSelect (data : Yaml) (workflowEnv : Option String) :
    PyResult (List (String × Yaml) × List Yaml × List String) :=
  match workflowEnv with
  | none => pure ([], [], [])
  | some s =>
      if s = "" then pure ([], [], [])
      else do
        let workflows ← pyGetA data "workflows" (.list [])
        let wl ← pyIterE workflows
        match findWorkflow wl s with
        | some wf => do
            let wfModels ← pyGetA wf "models" (.map [])
            let wfmEntries ← pyItemsE wfModels
            let wfm := wfmEntries.foldl (fun acc kv => upsertAssoc acc kv.1 kv.2) []
            let wfNodes ← pyGetA wf "custom_nodes" (.list [])
            let nl ← pyIterE wfNodes
            let nodes := nl.filterMap fun n =>
              match n with
              | .map nk =>
                  let u := mapGetD nk "url" .null
                  if pyTruthy u then some u else none
              | _ => none
            pure (wfm, nodes, ["SELECTED_WORKFLOW=" ++ s])
        | none => pure ([], [], ["WORKFLOW_NOT_FOUND:" ++ s])

/-- The whole YAML processing pass of the installer (exec string
lines 60–182 of test_yaml_processing.py, including the `or {}` coercion of
line 68): returns the printed `NAME=value` assignments in order together
with the stderr lines (workflow-selection notes, then unresolved-ref
warnings). Category names are upper-cased as Python's `str.upper` does on
the ASCII names the manifests use. -/
def yamlProcessor (doc : Yaml) (workflowEnv : Option String) :
    PyResult (List (String × String) × List String) := do
  let data := pyOrY doc (.map [])
  let install ← pyGetA data "install" (.map [])
  let comfyDir ← pyGetA install "comfy_dir" .null
  let comfyLine := export_var "COMFY_DIR" comfyDir
  let cpu ← pyGetA install "cpu_only" (.bool true)
  let cpuLine := export_var "CPU_ONLY" (.int (if pyTruthy cpu then 1 else 0))
  let models ← pyGetA data "models" (.map [])
  let destDir ← pyGetA models "dest_dir" .null
  let destLine := export_var "MODEL_DEST_DIR" destDir
  let srcDir ← pyGetA models "source_dir" .null
  let srcLine := export_var "MODELS_SOURCE_DIR" srcDir
  let sel ← procSelect data workflowEnv
  let workflow_models := sel.1
  let workflow_nodes := sel.2.1
  let selLines := sel.2.2
  let mEntries ← pyItemsE models
  let all_models ← mergeAllModels (globalCatsOf mEntries) workflow_models
  let global_models_by_cat := globalCatsOf mEntries
  let catAcc ← processorCatLines global_models_by_cat all_models
  let cn ← pyGetA data "custom_nodes" (.list [])
  let cnl ← pyIterE cn
  let globalUrls := cnl.filterMap fun n =>
    match n with
    | .map nk =>
        let url := mapGetD nk "url" .null
        if pyTruthy url then some (Yaml.str (pyStr url)) else none
    | _ => none
  let joined ← pyJoinE " " (globalUrls ++ workflow_nodes)
  let nodeLine := export_var "YAML_CUSTOM_NODE_URLS" (.str joined)
  pure (comfyLine ++ cpuLine ++ destLine ++ srcLine ++ catAcc.1 ++ nodeLine,
        selLines ++ catAcc.2)

/-! ## `simulate_yaml_processing` (tests/test_workflow_references.py,
lines 117–220): the test-side replica of the same resolver, working at
list level and additionally resolving workflow custom-node references -/

/-- Assoc update keyed by Python equality of `Yaml` values (dict item
assignment for the `id → node` index). -/
def upsertYAssoc : List (Yaml × Yaml) → Yaml → Yaml → List (Yaml × Yaml)
  | [], k, v => [(k, v)]
  | (k', v') :: rest, k, v =>
      if pyEq k' k then (k, v) :: rest else (k', v') :: upsertYAssoc rest k v

/-- Assoc lookup keyed by Python equality of `Yaml` values. -/
def lookupYAssoc : List (Yaml × Yaml) → Yaml → Option Yaml
  | [], _ => none
  | (k', v) :: rest, k => if pyEq k' k then some v else lookupYAssoc rest k

/-- Workflow custom-node collection (lines 135–143): a url-bearing mapping
node contributes its raw url, a ref-bearing one a `REF:` marker string,
anything else nothing. -/
def collectWfNodes (nl : List Yaml) : List Yaml :=
  nl.filterMap fun n =>
    match n with
    | .map nk =>
        let u := mapGetD nk "url" .null
        if pyTruthy u then some u
        else
          let r := mapGetD nk "ref" .null
          if pyTruthy r then some (.str ("REF:" ++ pyStr r)) else none
    | _ => none

/-- The global-category scan of a workflow model ref (lines 176–181): the
loop breaks at the first id-matching mapping entry whether or not that
entry carries a usable locator. -/
def findSimRef (ref_id : Yaml) (global_cat : List Yaml) : Option String :=
  match global_cat with
  | [] => none
  | gi :: rest =>
      match gi with
      | .map gk =>
          if pyEq (mapGetD gk "id" .null) ref_id then
            (if pyTruthy (locatorChain gk) then some (pyStr (locatorChain gk)) else none)
          else findSimRef ref_id rest
      | _ => findSimRef ref_id rest

/-- The body of the per-category resolution loop for one item
(lines 170–187): a `ref` mapping resolves through the global index, a
plain mapping contributes its truthy locator, a truthy non-mapping its
`str()`. -/
def simItemUrn (global_models_by_cat : List (String × Yaml)) (cat : String)
    (item : Yaml) : PyResult (Option String) :=
  match item with
  | .map ik =>
      match mapGet? ik "ref" with
      | some ref_id => do
          let global_cat := (lookupAssoc global_models_by_cat cat).getD (.list [])
          let gl ← pyIterE global_cat
          pure (findSimRef ref_id gl)
      | none =>
          let val := locatorChain ik
          pure (if pyTruthy val then some (pyStr val) else none)
  | _ => pure (if pyTruthy item then some (pyStr item) else none)

/-- The per-category resolution loop (lines 168–187). -/
def simCategoryUrns (global_models_by_cat : List (String × Yaml)) (cat : String)
    (lst : Yaml) : PyResult (List String) := do
  let items ← pyIterE lst
  items.foldlM
    (fun acc item => do
      match ← simItemUrn global_models_by_cat cat item with
      | some loc => pure (acc ++ [loc])
      | none => pure acc)
    []

/-- The `CIVITAI_*` entries of `resolved_env_vars` (lines 166–190): a
category whose resolution produced no locator contributes no entry at
all. -/
def simEnvModels (global_models_by_cat all_models : List (String × Yaml)) :
    PyResult (List (String × String)) :=
  all_models.foldlM
    (fun acc kv => do
      let urns ← simCategoryUrns global_models_by_cat kv.1 kv.2
      if urns.isEmpty then pure acc
      else pure (upsertAssoc acc ("CIVITAI_" ++ pyUpper kv.1) (String.intercalate "," urns)))
    []

/-- The global custom-node url list (line 193): raw `node["url"]` values of
mapping nodes with a truthy url. -/
def simGlobalNodeUrls (cnl : List Yaml) : List Yaml :=
  cnl.filterMap fun n =>
    match n with
    | .map nk =>
        if pyTruthy (mapGetD nk "url" .null) then some (mapGetD nk "url" .null) else none
    | _ => none

/-- The `id → node` index of global custom nodes (lines 196–199); an
unhashable id would crash the dict assignment. -/
def buildNodeIndex (cnl : List Yaml) : PyResult (List (Yaml × Yaml)) :=
  cnl.foldlM
    (fun acc n =>
      match n with
      | .map nk =>
          let idv := mapGetD nk "id" .null
          if pyTruthy idv then
            if pyHashable idv then pure (upsertYAssoc acc idv n)
            else .error .typeError
          else pure acc
      | _ => pure acc)
    []

/-- Resolution of the collected workflow node entries (lines 202–214): a
non-string entry dies on `.startswith`; a `REF:` marker resolves through
the index, where a missing target — or a target without a truthy url —
contributes nothing, silently; any other string passes through raw. -/
def resolveWfNodes (index : List (Yaml × Yaml)) (workflow_nodes : List Yaml) :
    PyResult (List Yaml) :=
  workflow_nodes.foldlM
    (fun acc node_url =>
      match node_url with
      | .str s =>
          if pyStartswith s "REF:" then
            let ref_id := pySliceFrom s 4
            match lookupYAssoc index (.str ref_id) with
            | some (.map nk) =>
                let actual := mapGetD nk "url" .null
                if pyTruthy actual then pure (acc ++ [Yaml.str (pyStr actual)])
                else pure acc
            | some _ => pure acc
            | none => pure acc
          else pure (acc ++ [node_url])
      | _ => .error .attributeError)
    []

/-- The workflow selection and collection step (lines 129–143): the
workflow models mapping and collected custom-node entries of the first
name-matching workflow, both empty when the selector is falsy or matches
nothing. -/
def simSelect (workflows : Yaml) (selected_workflow : Option String) :
    PyResult (List (String × Yaml) × List Yaml) :=
  match selected_workflow with
  | none => pure (([] : List (String × Yaml)), ([] : List Yaml))
  | some w =>
      if w = "" then pure ([], [])
      else do
        let wl ← pyIterE workflows
        match findWorkflow wl w with
        | some wf => do
            let wfModels ← pyGetA wf "models" (.map [])
            let wfmEntries ← pyItemsE wfModels
            let wfm := wfmEntries.foldl (fun acc kv => upsertAssoc acc kv.1 kv.2) []
            let wfNodes ← pyGetA wf "custom_nodes" (.list [])
            let nl ← pyIterE wfNodes
            pure (wfm, collectWfNodes nl)
        | none => pure ([], [])

/-- The final env assembly (lines 216–218): the `YAML_CUSTOM_NODE_URLS`
entry is added only when the combined node-url list is non-empty. -/
def simFinalEnv (envModels : List (String × String)) (all_node_urls : List Yaml) :
    PyResult (List (String × String)) :=
  if all_node_urls.isEmpty then pure envModels
  else do
    let joined ← pyJoinE " " all_node_urls
    pure (upsertAssoc envModels "YAML_CUSTOM_NODE_URLS" joined)

/-- `simulate_yaml_processing` (lines 117–220): the `resolved_env_vars`
mapping in insertion order. Unlike the installer pass there is no `or {}`
coercion of the loaded document, empty node-url lists yield no
`YAML_CUSTOM_NODE_URLS` entry at all, and an unresolved node reference is
skipped without a warning (the real install script prints one to stderr,
per the comment at lines 210–212). -/
def simulate_yaml_processing (d : Yaml) (selected_workflow : Option String) :
    PyResult (List (String × String)) := do
  let models ← pyGetA d "models" (.map [])
  let workflows ← pyGetA d "workflows" (.list [])
  let sel ← simSelect workflows selected_workflow
  let workflow_models := sel.1
  let workflow_nodes := sel.2
  let mEntries ← pyItemsE models
  let all_models ← mergeAllModels (globalCatsOf mEntries) workflow_models
  let global_models_by_cat := globalCatsOf mEntries
  let envModels ← simEnvModels global_models_by_cat all_models
  let cn ← pyGetA d "custom_nodes" (.list [])
  let cnl ← pyIterE cn
  let global_nodes := simGlobalNodeUrls cnl
  let index ← buildNodeIndex cnl
  let resolved ← resolveWfNodes index workflow_nodes
  simFinalEnv envModels (global_nodes ++ resolved)

/-! ## Model-locator parsing: `scripts/download_civitai_models.py` -/

/-- The components `parse_urn` returns (lines 187–192). -/
structure UrnParts where
  model_type : String
  category : String
  platform : String
  model_id : String
deriving DecidableEq, Repr

/-- `parse_urn` (lines 173–194): `None` unless the string starts with
`urn:air:`, splits on `:` into exactly six parts, has the literal `air`
namespace segment, and a non-blank final segment; note the returned
`model_id` is the raw sixth segment, version suffix included. -/
def parse_urn (urn : String) : Option UrnParts :=
  if ¬ pyStartswith urn "urn:air:" then none
  else
    match pySplit urn ':' with
    | [_, ns, model_type, category, platform, model_id] =>
        if ns = "air" ∧ pyStrip model_id ≠ "" then
          some ⟨model_type, category, platform, model_id⟩
        else none
    | _ => none

/-- `_parse_model_spec` (lines 384–415): for an `urn:air:` spec, take the
segment after the first `civitai` segment and split an optional `@version`
off it; a URN without a `civitai` segment or with nothing after it falls
back to `(spec, None)`; a non-URN spec splits once on `:` into
`id[:version]`. -/
def parse_model_spec (spec0 : String) : String × Option String :=
  let spec := pyStrip spec0
  if pyStartswith spec "urn:air:" then
    let parts := pySplit spec ':' 
    match parts.findIdx? (· = "civitai") with
    | some civ_index =>
        match parts[civ_index + 1]? with
        | some id_ver =>
            if id_ver.data.contains '@' then
              let p := pySplitOnce id_ver '@'
              (p.1, some (p.2.getD ""))
            else (id_ver, none)
        | none => (spec, none)
    | none => (spec, none)
  else if spec.data.contains ':' then
    let p := pySplitOnce spec ':'
    (p.1, some (p.2.getD ""))
  else (spec, none)

/-! ## Well-formedness domain and specification-side definitions

The general theorems below quantify over manifests in the well-formed
domain the specification describes: entry fields are either absent or
non-empty strings, category values are lists, sections have their
documented shapes. The `spec…` definitions restate, in that domain, what
the specification's prose says the components produce; the theorems
compare them with the embedded code. -/

/-- A field of an entry is absent or a non-empty string. -/
def wfOptField (ik : List (String × Yaml)) (k : String) : Bool :=
  match mapGet? ik k with
  | none => true
  | some (.str s) => s ≠ ""
  | some _ => false

/-- A model entry: a non-empty bare string, or a mapping whose `id`, `urn`,
`url`, `ref` fields are absent or non-empty strings. -/
def wfEntry : Yaml → Bool
  | .str s => s ≠ ""
  | .map ik =>
      wfOptField ik "id" && wfOptField ik "urn" && wfOptField ik "url" && wfOptField ik "ref"
  | _ => false

/-- A model category value: a list of well-formed entries. -/
def wfCatList : Yaml → Bool
  | .list l => l.all wfEntry
  | _ => false

/-- Pairwise-distinct strings. -/
def distinctStrs : List String → Bool
  | [] => true
  | s :: rest => !(rest.contains s) && distinctStrs rest

/-- A `models` section value: a mapping whose non-`dest_dir`/`source_dir`
values are well-formed category lists, with category names distinct even
after upper-casing (as the env-var naming requires). -/
def wfModelsVal : Yaml → Bool
  | .map mk =>
      (mk.all fun kv =>
        kv.1 == "dest_dir" || kv.1 == "source_dir" || wfCatList kv.2) &&
      distinctStrs (mk.map fun kv => pyUpper kv.1)
  | _ => false

/-- A custom-node entry: a mapping whose `id` and `ref` fields are absent
or non-empty strings, and whose `url` is absent or a non-empty string not
starting with the resolver's internal `REF:` marker. -/
def wfNode : Yaml → Bool
  | .map nk =>
      wfOptField nk "id" && wfOptField nk "ref" &&
      (match mapGet? nk "url" with
       | none => true
       | some (.str s) => s ≠ "" && !(pyStartswith s "REF:")
       | some _ => false)
  | _ => false

/-- A workflow: a mapping whose `models` section (when present) is a
well-formed models value and whose `custom_nodes` section (when present)
is a list of well-formed nodes. -/
def wfWorkflow : Yaml → Bool
  | .map wk =>
      (match mapGet? wk "models" with
       | none => true
       | some v => wfModelsVal v) &&
      (match mapGet? wk "custom_nodes" with
       | none => true
       | some (.list nl) => nl.all wfNode
       | some _ => false)
  | _ => false

/-- A well-formed manifest root. -/
def wfManifest : Yaml → Bool
  | .map kvs =>
      (match mapGet? kvs "models" with
       | none => true
       | some v => wfModelsVal v) &&
      (match mapGet? kvs "custom_nodes" with
       | none => true
       | some (.list nl) => nl.all wfNode
       | some _ => false) &&
      (match mapGet? kvs "workflows" with
       | none => true
       | some (.list wl) => wl.all wfWorkflow
       | some _ => false)
  | _ => false

/-- The locator the spec assigns to a mapping entry's own fields: `urn` if
present, else `url`, else `id` (in the well-formed domain fields are
strings). -/
def specDirectFields (ik : List (String × Yaml)) : Option String :=
  match mapGet? ik "urn" with
  | some (.str s) => some s
  | _ =>
      match mapGet? ik "url" with
      | some (.str s) => some s
      | _ =>
          match mapGet? ik "id" with
          | some (.str s) => some s
          | _ => none

/-- The locator precedence of the amended claim: `urn` if present with a
non-empty value, else `url`, else `id`. -/
def truthyLocator (ik : List (String × Yaml)) : Option String :=
  match mapGet? ik "urn" with
  | some (.str s) =>
      if s ≠ "" then some s
      else
        match mapGet? ik "url" with
        | some (.str u) =>
            if u ≠ "" then some u
            else
              match mapGet? ik "id" with
              | some (.str i) => if i ≠ "" then some i else none
              | _ => none
        | _ =>
            match mapGet? ik "id" with
            | some (.str i) => if i ≠ "" then some i else none
            | _ => none
  | _ =>
      match mapGet? ik "url" with
      | some (.str u) =>
          if u ≠ "" then some u
          else
            match mapGet? ik "id" with
            | some (.str i) => if i ≠ "" then some i else none
            | _ => none
      | _ =>
          match mapGet? ik "id" with
          | some (.str i) => if i ≠ "" then some i else none
          | _ => none

/-- Whether the entry's fields are all absent-or-string (possibly empty;
the domain of the amended precedence claim). -/
def entryFieldsStr (ik : List (String × Yaml)) : Bool :=
  ["urn", "url", "id", "ref"].all fun k =>
    match mapGet? ik k with
    | none => true
    | some (.str _) => true
    | some _ => false

/-- The first global entry of a category carrying the given id, as the
spec's reference relation words it (exact, case-sensitive string equality
on `id`). -/
def specFindGlobalById (gm : List (String × Yaml)) (cat : String) (r : String) :
    Option (List (String × Yaml)) :=
  match lookupAssoc gm cat with
  | some (.list l) =>
      (l.filterMap fun gi =>
        match gi with
        | .map gk =>
            (match mapGet? gk "id" with
             | some (.str s) => if s = r then some gk else none
             | _ => none)
        | _ => none).head?
  | _ => none

/-- The locator the spec assigns to one entry of a category: a string
entry as-is, a `ref` mapping the locator of the matching global entry, any
other mapping its own `urn`-or-`url`-or-`id`. -/
def specEntryLocator (gm : List (String × Yaml)) (cat : String) (e : Yaml) :
    Option String :=
  match e with
  | .str s => some s
  | .map ik =>
      match mapGet? ik "ref" with
      | some (.str r) =>
          match specFindGlobalById gm cat r with
          | some gk => specDirectFields gk
          | none => none
      | some _ => none
      | none => specDirectFields ik
  | _ => none

/-- The global model categories of a well-formed manifest with their entry
lists (declaration order, `dest_dir`/`source_dir` excluded). -/
def specGlobalCats (mk : List (String × Yaml)) : List (String × List Yaml) :=
  mk.filterMap fun kv =>
    if kv.1 = "dest_dir" ∨ kv.1 = "source_dir" then none
    else
      match kv.2 with
      | .list l => some (kv.1, l)
      | _ => none

/-- The resolver output the spec prescribes when no workflow is selected:
the flattened global pools — per category the entries' locators in
declaration order (references expanded against the global pools, empty
categories contributing no field), plus the global custom-node urls when
any exist. -/
def specNoWorkflowEnv (kvs : List (String × Yaml)) : List (String × String) :=
  let mk := match mapGet? kvs "models" with
    | some (.map mk) => mk
    | _ => []
  let gm := globalCatsOf mk
  let fields := (specGlobalCats mk).filterMap fun p =>
    let locs := p.2.filterMap (specEntryLocator gm p.1)
    if locs.isEmpty then none
    else some ("CIVITAI_" ++ pyUpper p.1, String.intercalate "," locs)
  let nodeUrls := match mapGet? kvs "custom_nodes" with
    | some (.list nl) =>
        nl.filterMap fun n =>
          match n with
          | .map nk =>
              (match mapGet? nk "url" with
               | some (.str s) => some s
               | _ => none)
          | _ => none
    | _ => []
  fields ++
    (if nodeUrls.isEmpty then []
     else [("YAML_CUSTOM_NODE_URLS", String.intercalate " " nodeUrls)])

/-- The ids of the global entries of one model category, as the validator's
cross-reference contract words it. -/
def specGlobalModelIds (models : List (String × Yaml)) (cat : String) : List String :=
  match lookupAssoc models cat with
  | some (.list l) =>
      l.filterMap fun e =>
        match e with
        | .map ik =>
            (match mapGet? ik "id" with
             | some (.str s) => some s
             | _ => none)
        | _ => none
  | _ => []

/-- The ids of the global custom-node entries. -/
def specGlobalNodeIds (nodes : List Yaml) : List String :=
  nodes.filterMap fun n =>
    match n with
    | .map nk =>
        (match mapGet? nk "id" with
         | some (.str s) => some s
         | _ => none)
    | _ => none

/-- The cross-reference violations the claim describes: for every workflow
model entry carrying `ref`, one `ref not found` message naming workflow
index, category, item index and the missing id exactly when the ref is not
among that category's global ids; symmetrically for workflow custom-node
refs against the global custom-node ids. -/
def specCrossRefErrors (kvs : List (String × Yaml)) : List String :=
  let models := match mapGet? kvs "models" with
    | some (.map mk) => mk
    | _ => []
  let nodes := match mapGet? kvs "custom_nodes" with
    | some (.list nl) => nl
    | _ => []
  let workflows := match mapGet? kvs "workflows" with
    | some (.list wl) => wl
    | _ => []
  workflows.enum.flatMap fun wp =>
    match wp.2 with
    | .map wk =>
        (let wfm := match mapGet? wk "models" with
          | some (.map mk) => mk
          | _ => []
         wfm.flatMap fun kv =>
          match kv.2 with
          | .list items =>
              items.enum.filterMap fun ip =>
                match ip.2 with
                | .map ik =>
                    (match mapGet? ik "ref" with
                     | some (.str r) =>
                         if r ∈ specGlobalModelIds models kv.1 then none
                         else some ("workflows[" ++ toString wp.1 ++ "].models." ++ kv.1 ++
                           "[" ++ toString ip.1 ++ "] ref \x27" ++ r ++
                           "\x27 not found in models." ++ kv.1)
                     | _ => none)
                | _ => none
          | _ => []) ++
        (let wfn := match mapGet? wk "custom_nodes" with
          | some (.list nl) => nl
          | _ => []
         wfn.enum.filterMap fun np =>
          match np.2 with
          | .map nk =>
              (match mapGet? nk "ref" with
               | some (.str r) =>
                   if r ∈ specGlobalNodeIds nodes then none
                   else some ("workflows[" ++ toString wp.1 ++ "].custom_nodes[" ++
                     toString np.1 ++ "] ref \x27" ++ r ++
                     "\x27 not found in global custom_nodes")
               | _ => none)
          | _ => none)
    | _ => []

/-- Modelled from the spec: the install script
`scripts/install_comfy_and_models.sh` is not part of the sources here —
only its YAML processing core is (embedded in the tests). Per the spec's
resolution-warning contract (and the comment at lines 210–212 of
test_workflow_references.py, which skips the warning in simulation), the
script prints a warning `ref '<id>' not found` for every workflow
custom-node `ref` marker that matches no indexed global custom-node id. -/
def nodeRefWarnings (index : List (Yaml × Yaml)) (workflow_nodes : List Yaml) :
    List String :=
  workflow_nodes.filterMap fun n =>
    match n with
    | .str s =>
        if pyStartswith s "REF:" ∧ (lookupYAssoc index (.str (pySliceFrom s 4))).isNone
        then some ("ref \x27" ++ pySliceFrom s 4 ++ "\x27 not found")
        else none
    | _ => none

/-- The node url the spec assigns to one workflow custom-node entry:
its own `url` when present, else — when it carries `ref` — the `url` of
the indexed global entry with that id; anything else contributes
nothing. -/
def specWfNodeUrl (index : List (Yaml × Yaml)) (n : Yaml) : Option String :=
  match n with
  | .map nk =>
      match mapGet? nk "url" with
      | some (.str u) => some u
      | _ =>
          match mapGet? nk "ref" with
          | some (.str r) =>
              (match lookupYAssoc index (.str r) with
               | some (.map gk) =>
                   (match mapGet? gk "url" with
                    | some (.str u) => some u
                    | _ => none)
               | _ => none)
          | _ => none
  | _ => none

/-- The global custom-node urls the spec prescribes: every entry's `url`,
entries without one skipped. -/
def specGlobalNodeUrls (cnl : List Yaml) : List String :=
  cnl.filterMap fun n =>
    match n with
    | .map nk =>
        (match mapGet? nk "url" with
         | some (.str u) => some u
         | _ => none)
    | _ => none

/-- The `id` field of a mapping entry when it is a string (the value the
validator adds to its per-category id sets). -/
def idOf : Yaml → Option String
  | .map ik =>
      match mapGet? ik "id" with
      | some (.str s) => some s
      | _ => none
  | _ => none

/-- An entry whose `id` field is absent or a string (hashable, so the
set-add cannot raise). -/
def idMentionOk : Yaml → Bool
  | .map ik =>
      match mapGet? ik "id" with
      | none => true
      | some (.str _) => true
      | some _ => false
  | _ => true

/-- A models mapping whose `dest_dir` / `source_dir` values, when present,
are strings (as the data model prescribes for these path fields). -/
def wfDirsVal : Yaml → Bool
  | .map mk =>
      (match mapGet? mk "dest_dir" with
       | none => true
       | some (.str _) => true
       | some _ => false) &&
      (match mapGet? mk "source_dir" with
       | none => true
       | some (.str _) => true
       | some _ => false)
  | _ => true

/-- `dest_dir` / `source_dir` string-ness for the global models mapping
and every workflow models mapping of a manifest. -/
def wfManifestDirs (kvs : List (String × Yaml)) : Bool :=
  wfDirsVal (mapGetD kvs "models" (.map [])) &&
  (match mapGet? kvs "workflows" with
   | some (.list wl) =>
       wl.all fun wf =>
         match wf with
         | .map wk => wfDirsVal (mapGetD wk "models" (.map []))
         | _ => true
   | _ => true)

/-- First binding of a category, skipping `dest_dir` / `source_dir`
bindings - what the `available_ids` construction can ever see. -/
def lookupNonDir : List (String × Yaml) → String → Option Yaml
  | [], _ => none
  | (k, v) :: rest, cat =>
      if k = "dest_dir" ∨ k = "source_dir" then lookupNonDir rest cat
      else if k = cat then some v else lookupNonDir rest cat

/-- The string ids of a category value (empty for a non-list). -/
def catIds : Yaml → List String
  | .list l => l.filterMap idOf
  | _ => []

/-- The global models entry list the spec reads off a manifest root. -/
def specModelsOf (kvs : List (String × Yaml)) : List (String × Yaml) :=
  match mapGet? kvs "models" with
  | some (.map mk) => mk
  | _ => []

/-- The global custom-node list the spec reads off a manifest root. -/
def specNodesOf (kvs : List (String × Yaml)) : List Yaml :=
  match mapGet? kvs "custom_nodes" with
  | some (.list nl) => nl
  | _ => []

/-- The workflows list the spec reads off a manifest root. -/
def specWorkflowsOf (kvs : List (String × Yaml)) : List Yaml :=
  match mapGet? kvs "workflows" with
  | some (.list wl) => wl
  | _ => []

/-- The models mapping the spec reads off one workflow. -/
def specWfModelsOf (wk : List (String × Yaml)) : List (String × Yaml) :=
  match mapGet? wk "models" with
  | some (.map mk) => mk
  | _ => []

/-- The custom-node list the spec reads off one workflow. -/
def specWfNodesOf (wk : List (String × Yaml)) : List Yaml :=
  match mapGet? wk "custom_nodes" with
  | some (.list nl) => nl
  | _ => []

/-- The violation the cross-reference contract assigns to one workflow
model item: a message exactly when the item carries a `ref` whose value is
not among the category's global ids. -/
def specModelRefItem (models : List (String × Yaml)) (wf_idx : Nat) (cat : String)
    (ip : Nat × Yaml) : Option String :=
  match ip.2 with
  | .map ik =>
      (match mapGet? ik "ref" with
       | some (.str r) =>
           if r ∈ specGlobalModelIds models cat then none
           else some ("workflows[" ++ toString wf_idx ++ "].models." ++ cat ++
             "[" ++ toString ip.1 ++ "] ref \x27" ++ r ++
             "\x27 not found in models." ++ cat)
       | _ => none)
  | _ => none

/-- The cross-reference violations of one workflow model category. -/
def specModelRefCat (models : List (String × Yaml)) (wf_idx : Nat)
    (kv : String × Yaml) : List String :=
  match kv.2 with
  | .list items => items.enum.filterMap (specModelRefItem models wf_idx kv.1)
  | _ => []

/-- The violation the contract assigns to one workflow custom-node item:
a message exactly when its `ref` is not among the global custom-node
ids. -/
def specNodeRefItem (nodes : List Yaml) (wf_idx : Nat) (np : Nat × Yaml) : Option String :=
  match np.2 with
  | .map nk =>
      (match mapGet? nk "ref" with
       | some (.str r) =>
           if r ∈ specGlobalNodeIds nodes then none
           else some ("workflows[" ++ toString wf_idx ++ "].custom_nodes[" ++
             toString np.1 ++ "] ref \x27" ++ r ++
             "\x27 not found in global custom_nodes")
       | _ => none)
  | _ => none

/-- All cross-reference violations of one workflow. -/
def specWfCrossRef (models : List (String × Yaml)) (nodes : List Yaml)
    (wp : Nat × Yaml) : List String :=
  match wp.2 with
  | .map wk =>
      (specWfModelsOf wk).flatMap (specModelRefCat models wp.1) ++
      (specWfNodesOf wk).enum.filterMap (specNodeRefItem nodes wp.1)
  | _ => []

/-- The warning the spec assigns to one workflow custom-node entry: its
ref names no indexed global id (and it has no url of its own). -/
def specNodeWarn (index : List (Yaml × Yaml)) (n : Yaml) : Option String :=
  match n with
  | .map nk =>
      if pyTruthy (mapGetD nk "url" .null) then none
      else
        match mapGet? nk "ref" with
        | some (.str r) =>
            if (lookupYAssoc index (.str r)).isNone
            then some ("ref \x27" ++ r ++ "\x27 not found")
            else none
        | _ => none
  | _ => none

/-- Replace the first binding of `k` (if any) by its image under `f`. -/
def updateFirst (k : String) (f : Yaml → Yaml) : List (String × Yaml) → List (String × Yaml)
  | [] => []
  | (k', v) :: rest =>
      if k' = k then (k', f v) :: rest else (k', v) :: updateFirst k f rest

/-- Append a reference-only entry `{ref: r}` to a category's entry list
(non-lists unchanged). -/
def appendRefEntry (r : String) : Yaml → Yaml
  | .list l => .list (l ++ [.map [("ref", .str r)]])
  | v => v

/-- Apply `appendRefEntry` to category `c` of a `models` mapping
(non-mappings unchanged). -/
def danglingModels (c r : String) : Yaml → Yaml
  | .map mk => .map (updateFirst c (appendRefEntry r) mk)
  | v => v

/-- Append a reference-only entry `{ref: r}` to global model category `c`
of a manifest (when the manifest root, its `models` section and that
category's value have their documented shapes; anything else is left
unchanged). -/
def withDanglingGlobalRef (d : Yaml) (c r : String) : Yaml :=
  match d with
  | .map kvs => .map (updateFirst "models" (danglingModels c r) kvs)
  | d => d

/-! ## Theorems -/

/-- Inversion of `Except` bind on success. -/
theorem except_bind_ok {ε α β : Type} {x : Except ε α} {f : α → Except ε β} {b : β} :
    (x >>= f) = .ok b ↔ ∃ a, x = .ok a ∧ f a = .ok b := by
  cases x <;> simp [Bind.bind, Except.bind]

/-- C3. The claim says the validator never raises on structurally
malformed content — in particular on a workflow whose `models` key is
present but holds null — and turns every such defect into an accumulated
violation message. The code contradicts this (and its own guard style:
line 179 coerces the very same access with `or {}`, line 101 does not): a
workflow with `models: null` reaches `wf_models.items()` with `None` and
the script dies with `AttributeError`, reporting nothing. This theorem
evaluates the embedded validator at that failing input. -/
theorem claim_C3_wf_models_null_crashes :
    validateData (.map [("workflows", .list
      [.map [("name", .str "w"), ("models", .null)]])]) = .error .attributeError := by
  rfl

/-- C2, as amended. The claim said a document that cannot be parsed, or
one whose root is not a mapping, exits fatally with code 2, distinct from
the violations exit 1. In the code only an unreadable source exits 2: a
YAML syntax error exits 1 (with a parse message rather than a violations
list — the repository's own tests pin this exit code), and a root that
parses to a bare list or scalar crashes with an uncaught
`AttributeError`; a mapping with violations exits 1 and a clean mapping
exits 0. -/
theorem claim_C2_exit_codes :
    runValidateConfig .unreadable = .exited 2 ∧
    runValidateConfig .parseError = .exited 1 ∧
    runValidateConfig (.parsed (.list [.str "a"])) = .uncaught .attributeError ∧
    runValidateConfig (.parsed (.str "scalar")) = .uncaught .attributeError ∧
    runValidateConfig (.parsed (.map [("bad_key", .null)])) = .exited 1 ∧
    runValidateConfig (.parsed (.map [])) = .exited 0 :=
  ⟨rfl, rfl, rfl, rfl, rfl, rfl⟩

/-- C2, counterexample to the claim as stated: a source whose document
cannot be parsed (a YAML syntax error) terminates with exit code 1 — the
same code the claim reserves for the violations outcome, not the fatal
code 2 it asserts — and a parsed bare-list root does not produce a
controlled exit at all but an uncaught exception. -/
theorem claim_C2_counterexample :
    runValidateConfig .parseError = .exited 1 ∧
    runValidateConfig (.parsed (.map [("bad_key", .null)])) = .exited 1 ∧
    runValidateConfig (.parsed (.list [.str "a"])) = .uncaught .attributeError ∧
    ExitOutcome.exited 1 ≠ ExitOutcome.exited 2 :=
  ⟨rfl, rfl, rfl, by decide⟩

/-- Splitting never yields an empty piece list. -/
theorem pySplitChar_ne_nil (sep : Char) (l : List Char) : pySplitChar sep l ≠ [] := by
  induction l with
  | nil => simp [pySplitChar]
  | cons c rest ih =>
      cases h : pySplitChar sep rest with
      | nil => exact absurd h ih
      | cons w ws =>
          simp only [pySplitChar, h]
          split <;> simp

/-- `pyStartswith` is list-prefix of the code points. -/
theorem pyStartswith_iff {s p : String} : pyStartswith s p = true ↔ p.data <+: s.data := by
  simp [pyStartswith, List.isPrefixOf_iff_prefix]

/-- Splitting a character list that starts with the eight characters of
`urn:air:` peels off the `urn` and `air` segments. -/
theorem pySplitChar_urn_air (t : List Char) :
    pySplitChar ':' ('u' :: 'r' :: 'n' :: ':' :: 'a' :: 'i' :: 'r' :: ':' :: t) =
      ['u', 'r', 'n'] :: ['a', 'i', 'r'] :: pySplitChar ':' t := by
  cases h : pySplitChar ':' t with
  | nil => exact absurd h (pySplitChar_ne_nil ':' t)
  | cons w ws => simp [pySplitChar, h]

/-- C8. A parsed URN necessarily has the claimed form — six
colon-separated segments starting with the literal `urn` and `air`
segments and ending in a non-blank model-id segment (which carries the
optional `@version`) — and the concrete URN of the claim parses to
model-type `sdxl`, category `checkpoint`, platform `civitai`, with
`_parse_model_spec` splitting the segment after the `civitai` platform
token into model-id `443821` and version `1928679`. -/
theorem claim_C8_urn_grammar :
    (∀ (s : String) (r : UrnParts), parse_urn s = some r →
      pyStartswith s "urn:air:" = true ∧
      pySplit s ':' = ["urn", "air", r.model_type, r.category, r.platform, r.model_id] ∧
      pyStrip r.model_id ≠ "") ∧
    parse_urn "urn:air:sdxl:checkpoint:civitai:443821@1928679" =
      some ⟨"sdxl", "checkpoint", "civitai", "443821@1928679"⟩ ∧
    parse_model_spec "urn:air:sdxl:checkpoint:civitai:443821@1928679" =
      ("443821", some "1928679") := by
  refine ⟨?_, rfl, rfl⟩
  intro s r h
  cases hp : pyStartswith s "urn:air:" with
  | false => rw [parse_urn] at h; simp [hp] at h
  | true =>
      obtain ⟨t, ht⟩ := pyStartswith_iff.mp hp
      have hdata : s.data = 'u' :: 'r' :: 'n' :: ':' :: 'a' :: 'i' :: 'r' :: ':' :: t := by
        rw [← ht]; rfl
      have hsplit : pySplit s ':' = "urn" :: "air" :: (pySplitChar ':' t).map String.mk := by
        unfold pySplit
        rw [hdata, pySplitChar_urn_air]
        rfl
      rw [parse_urn] at h
      simp only [hp, not_true, if_false, Bool.not_eq_true] at h
      split at h
      next a ns mt cat plat mid heq =>
        split at h
        next hc =>
          injection h with h'
          subst h'
          rw [heq] at hsplit
          simp only [List.cons.injEq] at hsplit
          exact ⟨rfl, by rw [heq, hsplit.1, hc.1], hc.2⟩
        next => exact absurd h (by simp)
      next => exact absurd h (by simp)

/-- C8, witness: the general grammar conjunct applied at the claim's
concrete URN. -/
theorem claim_C8_witness :
    pyStartswith "urn:air:sdxl:checkpoint:civitai:443821@1928679" "urn:air:" = true ∧
    pySplit "urn:air:sdxl:checkpoint:civitai:443821@1928679" ':' =
      ["urn", "air", "sdxl", "checkpoint", "civitai", "443821@1928679"] ∧
    pyStrip "443821@1928679" ≠ "" :=
  claim_C8_urn_grammar.1 _ ⟨"sdxl", "checkpoint", "civitai", "443821@1928679"⟩ rfl

/-- An entry field surviving `entryFieldsStr` is absent or a string. -/
theorem optFieldShape (o : Option Yaml)
    (h : (match o with
          | none => true
          | some (Yaml.str _) => true
          | some _ => false) = true) :
    o = none ∨ ∃ s, o = some (Yaml.str s) := by
  match o with
  | none => exact Or.inl rfl
  | some (Yaml.str s) => exact Or.inr ⟨s, rfl⟩
  | some .null | some (.bool _) | some (.int _) | some (.list _) | some (.map _) =>
      simp at h

/-- The code's truthy-guarded `or`-chain over string-or-absent fields is
exactly the amended `urn`-else-`url`-else-`id` precedence over non-empty
values. -/
theorem locatorChain_truthy (ik : List (String × Yaml)) (h : entryFieldsStr ik = true) :
    (if pyTruthy (locatorChain ik) then some (pyStr (locatorChain ik)) else none) =
      truthyLocator ik := by
  simp only [entryFieldsStr, List.all_cons, List.all_nil, Bool.and_true,
    Bool.and_eq_true] at h
  rcases optFieldShape _ h.1 with h1 | ⟨su, h1⟩ <;>
    rcases optFieldShape _ h.2.1 with h2 | ⟨sv, h2⟩ <;>
      rcases optFieldShape _ h.2.2.1 with h3 | ⟨sw, h3⟩ <;>
        simp [locatorChain, truthyLocator, mapGetD, h1, h2, h3, pyOrY, pyTruthy, pyStr] <;>
          split_ifs <;> simp_all [pyStr]

/-- The amended precedence yields a value exactly when the code's chain is
truthy. -/
theorem truthyLocator_isSome (ik : List (String × Yaml)) (h : entryFieldsStr ik = true) :
    (truthyLocator ik).isSome = pyTruthy (locatorChain ik) := by
  have hl := locatorChain_truthy ik h
  cases ht : pyTruthy (locatorChain ik) <;> rw [ht] at hl <;> simp [← hl]

/-- C7, as amended: a bare non-empty string entry is used as-is (an empty
one is dropped), and a mapping entry contributes its `urn` when present
with a non-empty value, else its `url`, else its `id` — the precedence the
code's `item.get("urn") or item.get("url") or item.get("id")` chain
implements, applied identically to content entries in both resolver
replicas and to the global entry a ref resolves to. -/
theorem claim_C7_locator_precedence :
    (∀ ik : List (String × Yaml), entryFieldsStr ik = true →
      (if pyTruthy (locatorChain ik) then some (pyStr (locatorChain ik)) else none) =
        truthyLocator ik) ∧
    (∀ s : String, extract_ids (some [.str s]) = if s = "" then none else some s) ∧
    (∀ (gm : List (String × Yaml)) (cat : String) (s : String),
      simItemUrn gm cat (.str s) = .ok (if s = "" then none else some s)) ∧
    (∀ ik : List (String × Yaml), entryFieldsStr ik = true → mapHasKey ik "ref" = false →
      extract_ids (some [.map ik]) = truthyLocator ik) ∧
    (∀ (gk : List (String × Yaml)) (r : String) (rest : List Yaml),
      entryFieldsStr gk = true →
      findRefLocator r (.map gk :: rest) =
        if pyEq (mapGetD gk "id" .null) (.str r) ∧ (truthyLocator gk).isSome
        then truthyLocator gk else findRefLocator r rest) := by
  refine ⟨locatorChain_truthy, ?_, ?_, ?_, ?_⟩
  · intro s
    by_cases hs : s = "" <;> simp [extract_ids, pyTruthy, pyStr, hs] <;> rfl
  · intro gm cat s
    by_cases hs : s = "" <;> simp [simItemUrn, pyTruthy, pyStr, hs] <;> rfl
  · intro ik h hr
    have hl := locatorChain_truthy ik h
    have hj : String.intercalate "," [pyStr (locatorChain ik)] = pyStr (locatorChain ik) := rfl
    cases ht : pyTruthy (locatorChain ik) <;> rw [ht] at hl <;>
      simp [extract_ids, hr, ht, ← hl, hj]
  · intro gk r rest h
    have hl := locatorChain_truthy gk h
    have hs := truthyLocator_isSome gk h
    by_cases hid : pyEq (mapGetD gk "id" .null) (.str r)
    · cases ht : pyTruthy (locatorChain gk) <;> rw [ht] at hl hs <;>
        simp [findRefLocator, hid, ht, hs, ← hl]
    · simp [findRefLocator, hid]

/-- C7, counterexample to the claim as stated: for the entry
`{urn: "", url: "https://x"}` the claim's precedence — `urn` *if present* —
would contribute the present (empty) `urn`, but both resolver replicas
contribute the `url`, because the code tests truthiness, not presence. -/
theorem claim_C7_counterexample :
    extract_ids (some [.map [("urn", .str ""), ("url", .str "https://x")]]) =
      some "https://x" ∧
    simItemUrn [] "checkpoints" (.map [("urn", .str ""), ("url", .str "https://x")]) =
      .ok (some "https://x") ∧
    specDirectFields [("urn", .str ""), ("url", .str "https://x")] = some "" ∧
    (some "https://x" : Option String) ≠ some "" :=
  ⟨rfl, rfl, rfl, by decide⟩

/-- C7, witness: the amended precedence applied at concrete entries. -/
theorem claim_C7_witness :
    (if pyTruthy (locatorChain [("url", .str "https://u"), ("id", .str "mid")]) then
      some (pyStr (locatorChain [("url", .str "https://u"), ("id", .str "mid")]))
     else none) = truthyLocator [("url", .str "https://u"), ("id", .str "mid")] ∧
    extract_ids (some [.map [("urn", .str "urn:x")]]) =
      truthyLocator [("urn", .str "urn:x")] :=
  ⟨claim_C7_locator_precedence.1 _ rfl, claim_C7_locator_precedence.2.2.2.1 _ rfl rfl⟩

/-- Updating one key's value leaves other keys' lookups unchanged. -/
theorem mapGet?_updateFirst_ne (m : List (String × Yaml)) (k k' : String) (f : Yaml → Yaml)
    (h : k' ≠ k) : mapGet? (updateFirst k f m) k' = mapGet? m k' := by
  induction m with
  | nil => rfl
  | cons kv rest ih =>
      obtain ⟨k0, v0⟩ := kv
      by_cases hk : k0 = k
      · subst hk
        simp only [updateFirst, eq_self_iff_true, if_true, mapGet?]
        rw [if_neg (fun he => h he.symm), if_neg (fun he => h he.symm)]
      · simp [updateFirst, hk, mapGet?, ih]

/-- Updating a key's value maps its lookup. -/
theorem mapGet?_updateFirst_self (m : List (String × Yaml)) (k : String) (f : Yaml → Yaml) :
    mapGet? (updateFirst k f m) k = (mapGet? m k).map f := by
  induction m with
  | nil => rfl
  | cons kv rest ih =>
      obtain ⟨k0, v0⟩ := kv
      by_cases hk : k0 = k <;> simp [updateFirst, hk, mapGet?, ih]

/-- A `filterMap` ignoring the updated value is unchanged by the update. -/
theorem filterMap_updateFirst {β : Type} (k : String) (f : Yaml → Yaml)
    (g : (String × Yaml) → Option β) (h : ∀ v, g (k, f v) = g (k, v))
    (m : List (String × Yaml)) :
    (updateFirst k f m).filterMap g = m.filterMap g := by
  induction m with
  | nil => rfl
  | cons kv rest ih =>
      obtain ⟨k0, v0⟩ := kv
      by_cases hk : k0 = k
      · subst hk; simp [updateFirst, List.filterMap_cons, h]
      · simp [updateFirst, hk, List.filterMap_cons, ih]

/-- A `flatMap` whose function is blind to the update is unchanged. -/
theorem flatMap_updateFirst {β : Type} (k : String) (f : Yaml → Yaml)
    (g : (String × Yaml) → List β) (h : ∀ v, g (k, f v) = g (k, v))
    (m : List (String × Yaml)) :
    (updateFirst k f m).flatMap g = m.flatMap g := by
  induction m with
  | nil => rfl
  | cons kv rest ih =>
      obtain ⟨k0, v0⟩ := kv
      by_cases hk : k0 = k
      · subst hk; simp [updateFirst, h]
      · simp [updateFirst, hk, ih]

/-- A monadic fold whose step is blind to the update is unchanged. -/
theorem foldlM_updateFirst {α : Type} (k : String) (f : Yaml → Yaml)
    (step : α → (String × Yaml) → PyResult α)
    (h : ∀ acc v, step acc (k, f v) = step acc (k, v))
    (m : List (String × Yaml)) (init : α) :
    (updateFirst k f m).foldlM step init = m.foldlM step init := by
  induction m generalizing init with
  | nil => rfl
  | cons kv rest ih =>
      obtain ⟨k0, v0⟩ := kv
      by_cases hk : k0 = k
      · subst hk
        simp only [updateFirst, eq_self_iff_true, if_true, List.foldlM_cons, h]
      · simp only [updateFirst, if_neg hk, List.foldlM_cons]
        cases step init (k0, v0) <;> simp [ih]

/-- A reference-only entry `{ref: r}` passes the structural model-entry
checks silently. -/
theorem modelItemErrors_refEntry (pre : String) (n : Nat) (r : String) :
    modelItemErrors pre n (.map [("ref", .str r)]) = [] := rfl

/-- Appending a reference-only entry to a category list adds no structural
violation. -/
theorem modelListErrors_appendRef (pre : String) (l : List Yaml) (r : String) :
    modelListErrors pre (appendRefEntry r (.list l)) = modelListErrors pre (.list l) := by
  simp [appendRefEntry, modelListErrors, List.enum_append, modelItemErrors_refEntry]

/-- A reference-only entry carries no `id`, so the category's id set is
unchanged by appending it. -/
theorem addCategoryIds_appendRef (v : Yaml) (r : String) :
    addCategoryIds (appendRefEntry r v) = addCategoryIds v := by
  cases v with
  | list l =>
      have h1 : pyOrY (.list (l ++ [.map [("ref", .str r)]])) (.list []) =
          .list (l ++ [.map [("ref", .str r)]]) := by simp [pyOrY, pyTruthy]
      have h2 : pyOrY (.list l) (.list []) = .list l := by
        cases l <;> simp [pyOrY, pyTruthy]
      have hid : mapGet? [("ref", Yaml.str r)] "id" = none := rfl
      simp only [appendRefEntry, addCategoryIds, h1, h2, pyIterE, Bind.bind, Except.bind]
      rw [List.foldlM_append]
      simp [List.foldlM_cons, List.foldlM_nil, hid, Bind.bind, Except.bind]
      cases List.foldlM (fun s item =>
        match item with
        | Yaml.map ik =>
          match mapGet? ik "id" with
          | some v => pySetAdd s v
          | none => pure s
        | _ => pure s) [] l <;> simp [Except.bind, Pure.pure, Except.pure]
  | null => rfl
  | bool b => rfl
  | int n => rfl
  | str s => rfl
  | map m => rfl

/-- C10. Appending a global (top-level) model entry that carries only a
`ref` — dangling or not — never changes the validator's output: the
structural pass accepts reference-only entries and the cross-reference
pass inspects only workflow-scoped entries, so a manifest whose only
defect is a dangling global ref reports no violation; concretely, a
manifest whose sole content is such an entry exits 0. -/
theorem claim_C10_global_refs_unchecked :
    (∀ (d : Yaml) (c r : String),
      validateData (withDanglingGlobalRef d c r) = validateData d) ∧
    runValidateConfig (.parsed (.map [("models",
      .map [("checkpoints", .list [.map [("ref", .str "missing")]])])])) = .exited 0 := by
  refine ⟨?_, rfl⟩
  intro d c r
  cases d with
  | null => rfl
  | bool b => rfl
  | int n => rfl
  | str s => rfl
  | list l => rfl
  | map kvs =>
      show validateData (.map (updateFirst "models" (danglingModels c r) kvs)) =
        validateData (.map kvs)
      have hT : topLevelKeyErrors (updateFirst "models" (danglingModels c r) kvs) =
          topLevelKeyErrors kvs := by
        unfold topLevelKeyErrors
        refine filterMap_updateFirst "models" (danglingModels c r) _ (fun v => ?_) kvs
        rfl
      have hI : installErrors (updateFirst "models" (danglingModels c r) kvs) =
          installErrors kvs := by
        unfold installErrors mapGetD
        rw [mapGet?_updateFirst_ne kvs "models" "install" _ (by decide)]
      have hCN : customNodesErrors (updateFirst "models" (danglingModels c r) kvs) =
          customNodesErrors kvs := by
        unfold customNodesErrors mapGetD
        rw [mapGet?_updateFirst_ne kvs "models" "custom_nodes" _ (by decide)]
      have hW : workflowsErrors (updateFirst "models" (danglingModels c r) kvs) =
          workflowsErrors kvs := by
        unfold workflowsErrors mapGetD
        rw [mapGet?_updateFirst_ne kvs "models" "workflows" _ (by decide)]
      have hM : modelsErrors (updateFirst "models" (danglingModels c r) kvs) =
          modelsErrors kvs := by
        unfold modelsErrors mapGetD
        rw [mapGet?_updateFirst_self]
        cases hm : mapGet? kvs "models" with
        | none => rfl
        | some mv =>
            cases mv with
            | null => rfl
            | bool b => rfl
            | int n => rfl
            | str s => rfl
            | list l => rfl
            | map mk =>
                cases mk with
                | nil => rfl
                | cons kv0 rest =>
                    obtain ⟨k0, v0⟩ := kv0
                    have htr : pyOrY (.map (updateFirst c (appendRefEntry r)
                        ((k0, v0) :: rest))) (.map []) =
                        .map (updateFirst c (appendRefEntry r) ((k0, v0) :: rest)) := by
                      simp only [updateFirst]
                      split <;> simp [pyOrY, pyTruthy]
                    have htr2 : pyOrY (.map ((k0, v0) :: rest)) (.map []) =
                        .map ((k0, v0) :: rest) := by simp [pyOrY, pyTruthy]
                    simp only [Option.map, Option.getD, danglingModels]
                    rw [htr, htr2]
                    refine flatMap_updateFirst c (appendRefEntry r) _ (fun v => ?_) _
                    by_cases hd : c = "dest_dir" ∨ c = "source_dir"
                    · simp [hd]
                    · rw [if_neg hd, if_neg hd]
                      cases v with
                      | list l2 => exact modelListErrors_appendRef _ l2 r
                      | null => rfl
                      | bool b => rfl
                      | int n => rfl
                      | str s => rfl
                      | map m2 => rfl
      have hX : crossRefErrors (updateFirst "models" (danglingModels c r) kvs) =
          crossRefErrors kvs := by
        unfold crossRefErrors mapGetD
        rw [mapGet?_updateFirst_ne kvs "models" "custom_nodes" _ (by decide),
          mapGet?_updateFirst_ne kvs "models" "workflows" _ (by decide),
          mapGet?_updateFirst_self]
        cases hm : mapGet? kvs "models" with
        | none => rfl
        | some mv =>
            cases mv with
            | null => rfl
            | bool b => rfl
            | int n => rfl
            | str s => rfl
            | list l => rfl
            | map mk =>
                cases mk with
                | nil => rfl
                | cons kv0 rest =>
                    obtain ⟨k0, v0⟩ := kv0
                    have htr : pyOrY (.map (updateFirst c (appendRefEntry r)
                        ((k0, v0) :: rest))) (.map []) =
                        .map (updateFirst c (appendRefEntry r) ((k0, v0) :: rest)) := by
                      simp only [updateFirst]
                      split <;> simp [pyOrY, pyTruthy]
                    have htr2 : pyOrY (.map ((k0, v0) :: rest)) (.map []) =
                        .map ((k0, v0) :: rest) := by simp [pyOrY, pyTruthy]
                    simp only [Option.map, Option.getD, danglingModels]
                    rw [htr, htr2]
                    have hbuild : buildAvailableIds (.map (updateFirst c (appendRefEntry r)
                        ((k0, v0) :: rest))) = buildAvailableIds (.map ((k0, v0) :: rest)) := by
                      unfold buildAvailableIds pyItemsE
                      simp only [Bind.bind, Except.bind]
                      exact foldlM_updateFirst c (appendRefEntry r) _
                        (fun acc v => by
                          by_cases hd : c = "dest_dir" ∨ c = "source_dir"
                          · simp [hd]
                          · simp [hd, addCategoryIds_appendRef]) _ _
                    rw [hbuild]
      simp only [validateData]
      rw [hW, hX]
      have : (topLevelKeyErrors (updateFirst "models" (danglingModels c r) kvs) ++
          installErrors (updateFirst "models" (danglingModels c r) kvs) ++
          modelsErrors (updateFirst "models" (danglingModels c r) kvs) ++
          customNodesErrors (updateFirst "models" (danglingModels c r) kvs)) =
          (topLevelKeyErrors kvs ++ installErrors kvs ++ modelsErrors kvs ++
          customNodesErrors kvs) := by rw [hT, hI, hM, hCN]
      rw [this]

/-- C9, amended. A model category none of whose entries survives
resolution contributes no output field: in the installer pass, appending a
category whose resolution yields no locator string to the category list
leaves the printed `CIVITAI_*` lines unchanged (only its warnings are
appended); in the simulation, appending a category whose resolution yields
no urn leaves the env mapping unchanged, and an empty combined node-url
list adds no `YAML_CUSTOM_NODE_URLS` entry. The claim's extension of this
to the custom-node category of the installer pass is false: `yamlProcessor`
prints a `YAML_CUSTOM_NODE_URLS` assignment on every successful run
(quoted-empty when no node has a url) — the last conjunct. -/
theorem claim_C9_empty_no_field :
    (∀ (gm ams : List (String × Yaml)) (cat : String) (v : Yaml)
       (out : List (String × String) × List String) (w : List String),
       resolve_refs cat (extract_ids (match v with | .list l => some l | _ => none)) gm
         = .ok (none, w) →
       processorCatLines gm ams = .ok out →
       processorCatLines gm (ams ++ [(cat, v)]) = .ok (out.1, out.2 ++ w))
  ∧ (∀ (gm ams : List (String × Yaml)) (cat : String) (v : Yaml)
       (env : List (String × String)),
       simCategoryUrns gm cat v = .ok [] →
       simEnvModels gm ams = .ok env →
       simEnvModels gm (ams ++ [(cat, v)]) = .ok env)
  ∧ (∀ env : List (String × String), simFinalEnv env [] = .ok env)
  ∧ (∀ (doc : Yaml) (wenv : Option String) (out : List (String × String) × List String),
       yamlProcessor doc wenv = .ok out →
       ∃ v, ("YAML_CUSTOM_NODE_URLS", v) ∈ out.1) := by
  refine ⟨?_, ?_, ?_, ?_⟩
  · intro gm ams cat v out w hres h
    unfold processorCatLines at h ⊢
    rw [List.foldlM_append, h]
    simp only [Bind.bind, Except.bind, List.foldlM_cons, List.foldlM_nil]
    rw [hres]
    simp [Bind.bind, Except.bind, Pure.pure, Except.pure]
  · intro gm ams cat v env hres h
    unfold simEnvModels at h ⊢
    rw [List.foldlM_append, h]
    simp only [Bind.bind, Except.bind, List.foldlM_cons, List.foldlM_nil]
    rw [hres]
    simp [Bind.bind, Except.bind, Pure.pure, Except.pure]
  · intro env
    rfl
  · intro doc wenv out h
    unfold yamlProcessor at h
    rcases except_bind_ok.mp h with ⟨install, _, h⟩
    rcases except_bind_ok.mp h with ⟨comfyDir, _, h⟩
    rcases except_bind_ok.mp h with ⟨cpu, _, h⟩
    rcases except_bind_ok.mp h with ⟨models, _, h⟩
    rcases except_bind_ok.mp h with ⟨destDir, _, h⟩
    rcases except_bind_ok.mp h with ⟨srcDir, _, h⟩
    rcases except_bind_ok.mp h with ⟨sel, _, h⟩
    rcases except_bind_ok.mp h with ⟨mEntries, _, h⟩
    rcases except_bind_ok.mp h with ⟨all_models, _, h⟩
    rcases except_bind_ok.mp h with ⟨catAcc, _, h⟩
    rcases except_bind_ok.mp h with ⟨cn, _, h⟩
    rcases except_bind_ok.mp h with ⟨cnl, _, h⟩
    rcases except_bind_ok.mp h with ⟨joined, _, h⟩
    simp only [Pure.pure, Except.pure, Except.ok.injEq] at h
    refine ⟨shlexQuote (pyStr (Yaml.str joined)), ?_⟩
    rw [← h]
    simp [export_var]

/-- C9, counterexample. The empty manifest has no usable custom-node entry
at all, yet the installer pass prints a `YAML_CUSTOM_NODE_URLS` field
holding a shell-quoted empty string — the claim predicts no such field. -/
theorem claim_C9_counterexample :
    yamlProcessor (.map []) none
      = .ok ([("CPU_ONLY", "1"), ("YAML_CUSTOM_NODE_URLS", "\x27\x27")], []) := rfl

/-- C9, witness: the amended theorem applied to a concrete empty
checkpoints category (both pipelines), a concrete env with no node urls,
and the empty manifest. -/
theorem claim_C9_witness :
    processorCatLines [] ([] ++ [("checkpoints", Yaml.list [])]) = .ok ([], [])
  ∧ simEnvModels [] ([] ++ [("checkpoints", Yaml.list [])]) = .ok []
  ∧ simFinalEnv [("CIVITAI_LORAS", "u")] [] = .ok [("CIVITAI_LORAS", "u")]
  ∧ (∃ v, ("YAML_CUSTOM_NODE_URLS", v) ∈
      ([("CPU_ONLY", "1"), ("YAML_CUSTOM_NODE_URLS", "\x27\x27")] : List (String × String))) :=
  ⟨claim_C9_empty_no_field.1 [] [] "checkpoints" (.list []) ([], []) [] rfl rfl,
   claim_C9_empty_no_field.2.1 [] [] "checkpoints" (.list []) [] rfl rfl,
   claim_C9_empty_no_field.2.2.1 [("CIVITAI_LORAS", "u")],
   claim_C9_empty_no_field.2.2.2 (.map []) none
     ([("CPU_ONLY", "1"), ("YAML_CUSTOM_NODE_URLS", "\x27\x27")], []) rfl⟩

/-- Appending a differently-keyed binding does not change a lookup. -/
theorem lookupAssoc_singleton_ne {α : Type} (l : List (String × α)) (k k' : String) (v : α)
    (h : k ≠ k') : lookupAssoc (l ++ [(k, v)]) k' = lookupAssoc l k' := by
  induction l with
  | nil => simp [lookupAssoc, h]
  | cons hd tl ih =>
      obtain ⟨k0, v0⟩ := hd
      simp only [lookupAssoc, List.cons_append]
      by_cases he : k0 = k'
      · rw [if_pos he, if_pos he]
      · rw [if_neg he, if_neg he]; exact ih

/-- Upserting one key does not change lookups of another. -/
theorem lookupAssoc_upsert_ne {α : Type} (l : List (String × α)) (k k' : String) (v : α)
    (h : k ≠ k') : lookupAssoc (upsertAssoc l k v) k' = lookupAssoc l k' := by
  induction l with
  | nil => simp [lookupAssoc, upsertAssoc, h]
  | cons hd tl ih =>
      obtain ⟨k0, v0⟩ := hd
      simp only [upsertAssoc, lookupAssoc]
      by_cases he : k0 = k
      · rw [if_pos he]
        simp only [lookupAssoc]
        rw [if_neg h, if_neg (he ▸ h : k0 ≠ k')]
      · rw [if_neg he]
        simp only [lookupAssoc]
        by_cases he2 : k0 = k'
        · rw [if_pos he2, if_pos he2]
        · rw [if_neg he2, if_neg he2]; exact ih

/-- Lookup after upsert of the same key yields the new value. -/
theorem lookupAssoc_upsert_self {α : Type} (l : List (String × α)) (k : String) (v : α) :
    lookupAssoc (upsertAssoc l k v) k = some v := by
  induction l with
  | nil => simp [lookupAssoc, upsertAssoc]
  | cons hd tl ih =>
      obtain ⟨k0, v0⟩ := hd
      simp only [upsertAssoc]
      by_cases he : k0 = k
      · rw [if_pos he]; simp [lookupAssoc]
      · rw [if_neg he]; simp only [lookupAssoc]; rw [if_neg he]; exact ih

/-- A category absent from the workflow overlay keeps its binding through
the merge. -/
theorem mergeAllModels_untouched :
    ∀ (wfm acc : List (String × Yaml)) (cat : String)
      (res : List (String × Yaml)),
      cat ∉ wfm.map Prod.fst → mergeAllModels acc wfm = .ok res →
      lookupAssoc res cat = lookupAssoc acc cat := by
  intro wfm
  induction wfm with
  | nil => intro acc cat res _ h; simp only [mergeAllModels, List.foldlM_nil, Pure.pure, Except.pure, Except.ok.injEq] at h; rw [← h]
  | cons hd tl ih =>
      intro acc cat res hmem h
      obtain ⟨k, v⟩ := hd
      have hk : k ≠ cat := fun he => hmem (by simp [he])
      have hmem' : cat ∉ tl.map Prod.fst := fun hc => hmem (by simp [hc])
      unfold mergeAllModels at h
      rw [List.foldlM_cons] at h
      rcases except_bind_ok.mp h with ⟨acc1, h1, h2⟩
      have hstep : lookupAssoc acc1 cat = lookupAssoc acc cat := by
        rcases hl : lookupAssoc acc k with _ | existing <;> rw [hl] at h1
        · simp only [Pure.pure, Except.pure, Except.ok.injEq] at h1
          rw [← h1]
          exact lookupAssoc_singleton_ne acc k cat _ hk
        · rcases except_bind_ok.mp h1 with ⟨merged, _, h1b⟩
          simp only [Pure.pure, Except.pure, Except.ok.injEq] at h1b
          rw [← h1b]
          exact lookupAssoc_upsert_ne acc k cat merged hk
      rw [← hstep]
      exact ih acc1 cat res hmem' h2

/-- `lst or []` on a list is the list itself. -/
theorem pyOrY_list_nil (o : List Yaml) : pyOrY (.list o) (.list []) = .list o := by
  cases o <;> rfl

/-- A category present once in the workflow overlay ends the merge bound
to its global entries followed by the overlay entries. -/
theorem mergeAllModels_touched :
    ∀ (pre : List (String × Yaml)) (gc post : List (String × Yaml)) (cat : String)
      (g o : List Yaml) (res : List (String × Yaml)),
      lookupAssoc gc cat = some (.list g) →
      cat ∉ pre.map Prod.fst → cat ∉ post.map Prod.fst →
      mergeAllModels gc (pre ++ (cat, .list o) :: post) = .ok res →
      lookupAssoc res cat = some (.list (g ++ o)) := by
  intro pre gc post cat g o res hg hpre hpost h
  unfold mergeAllModels at h
  rw [List.foldlM_append] at h
  rcases except_bind_ok.mp h with ⟨mid, h1, h2⟩
  have hmid : lookupAssoc mid cat = some (.list g) := by
    rw [mergeAllModels_untouched pre gc cat mid hpre h1]
    exact hg
  rw [List.foldlM_cons] at h2
  rcases except_bind_ok.mp h2 with ⟨mid2, h3, h4⟩
  rw [hmid] at h3
  rw [pyOrY_list_nil] at h3
  simp only [pyAddE, Bind.bind, Except.bind, Pure.pure, Except.pure, Except.ok.injEq] at h3
  rw [mergeAllModels_untouched post mid2 cat res hpost h4, ← h3]
  exact lookupAssoc_upsert_self mid cat (.list (g ++ o))

/-- Composition of `Except.map`s. -/
theorem except_map_map {ε α β γ : Type} (f : β → γ) (g : α → β) (x : Except ε α) :
    Except.map f (Except.map g x) = Except.map (fun a => f (g a)) x := by
  cases x <;> rfl

/-- The resolution fold of `simCategoryUrns` only ever appends: folding
from any accumulator prepends it to the fold from nil. -/
theorem simCatFold_shift (gm : List (String × Yaml)) (cat : String) :
    ∀ (l : List Yaml) (acc : List String),
      l.foldlM (fun acc item => do
          match ← simItemUrn gm cat item with
          | some loc => pure (acc ++ [loc])
          | none => pure acc) acc
      = Except.map (fun r => acc ++ r)
          (l.foldlM (fun acc item => do
            match ← simItemUrn gm cat item with
            | some loc => pure (acc ++ [loc])
            | none => pure acc) []) := by
  intro l
  induction l with
  | nil => intro acc; simp [Except.map, Pure.pure, Except.pure]
  | cons x xs ih =>
      intro acc
      rw [List.foldlM_cons, List.foldlM_cons]
      rcases hsi : simItemUrn gm cat x with e | r
      · rfl
      · rcases r with _ | loc
        · exact ih acc
        · refine Eq.trans (ih (acc ++ [loc]))
            (Eq.trans ?_ (congrArg (Except.map fun r => acc ++ r) (ih [loc])).symm)
          rw [except_map_map]
          have hfe : (fun r => acc ++ [loc] ++ r) = (fun r : List String => acc ++ ([loc] ++ r)) := by
            funext r; rw [List.append_assoc]
          rw [hfe]

/-- Category resolution distributes over list concatenation: the urns of
global-plus-overlay are the global urns followed by the overlay urns. -/
theorem simCategoryUrns_append (gm : List (String × Yaml)) (cat : String)
    (g o : List Yaml) (ug uo : List String)
    (hg : simCategoryUrns gm cat (.list g) = .ok ug)
    (ho : simCategoryUrns gm cat (.list o) = .ok uo) :
    simCategoryUrns gm cat (.list (g ++ o)) = .ok (ug ++ uo) := by
  unfold simCategoryUrns at hg ho ⊢
  rcases except_bind_ok.mp hg with ⟨ig, hig, hg2⟩
  rcases except_bind_ok.mp ho with ⟨io, hio, ho2⟩
  have heg : g = ig := by simpa [pyIterE] using hig
  have heo : o = io := by simpa [pyIterE] using hio
  subst heg; subst heo
  refine except_bind_ok.mpr ⟨g ++ o, rfl, ?_⟩
  rw [List.foldlM_append]
  refine except_bind_ok.mpr ⟨ug, hg2, ?_⟩
  rw [simCatFold_shift gm cat o ug, ho2]
  rfl

/-- C4. Each resolved model category is the global entries' locators in
declaration order followed by the workflow overlay entries' locators in
declaration order, with no deduplication: the merge binds a touched
category to global-plus-overlay concatenation, resolution distributes over
that concatenation, and the claim's concrete scenario (global checkpoint
`base` plus workflow ref `base`) yields the same URN twice, in the
installer pass and in the simulation. -/
theorem claim_C4_no_dedup :
    (∀ (gm : List (String × Yaml)) (cat : String) (g o : List Yaml) (ug uo : List String),
       simCategoryUrns gm cat (.list g) = .ok ug →
       simCategoryUrns gm cat (.list o) = .ok uo →
       simCategoryUrns gm cat (.list (g ++ o)) = .ok (ug ++ uo))
  ∧ (∀ (pre gc post : List (String × Yaml)) (cat : String) (g o : List Yaml)
       (res : List (String × Yaml)),
       lookupAssoc gc cat = some (.list g) →
       cat ∉ pre.map Prod.fst → cat ∉ post.map Prod.fst →
       mergeAllModels gc (pre ++ (cat, .list o) :: post) = .ok res →
       lookupAssoc res cat = some (.list (g ++ o)))
  ∧ yamlProcessor (.map
      [("models", .map [("checkpoints", .list
          [.map [("id", .str "base"), ("urn", .str "urn:air:sdxl:checkpoint:civitai:12345")]])]),
       ("workflows", .list
          [.map [("name", .str "W"),
                 ("models", .map [("checkpoints", .list [.map [("ref", .str "base")]])])]])])
      (some "W")
    = .ok ([("CPU_ONLY", "1"),
            ("CIVITAI_CHECKPOINTS",
             "urn:air:sdxl:checkpoint:civitai:12345,urn:air:sdxl:checkpoint:civitai:12345"),
            ("YAML_CUSTOM_NODE_URLS", "\x27\x27")],
           ["SELECTED_WORKFLOW=W"])
  ∧ simCategoryUrns
      [("checkpoints", .list
         [.map [("id", .str "base"), ("urn", .str "urn:air:sdxl:checkpoint:civitai:12345")]])]
      "checkpoints"
      (.list ([.map [("id", .str "base"), ("urn", .str "urn:air:sdxl:checkpoint:civitai:12345")]]
              ++ [.map [("ref", .str "base")]]))
    = .ok ["urn:air:sdxl:checkpoint:civitai:12345", "urn:air:sdxl:checkpoint:civitai:12345"] :=
  ⟨fun gm cat g o ug uo hg ho => simCategoryUrns_append gm cat g o ug uo hg ho,
   fun pre gc post cat g o res hg hpre hpost h =>
     mergeAllModels_touched pre gc post cat g o res hg hpre hpost h,
   rfl, rfl⟩

/-- C4, witness: the concatenation conjunct applied to two singleton
string entries, and the merge conjunct applied to a one-category overlay. -/
theorem claim_C4_witness :
    simCategoryUrns [] "c" (.list ([Yaml.str "a"] ++ [Yaml.str "a"])) = .ok (["a"] ++ ["a"])
  ∧ lookupAssoc [("c", Yaml.list [Yaml.str "a", Yaml.str "b"])] "c"
      = some (.list ([Yaml.str "a"] ++ [Yaml.str "b"])) :=
  ⟨claim_C4_no_dedup.1 [] "c" [.str "a"] [.str "a"] ["a"] ["a"] rfl rfl,
   claim_C4_no_dedup.2.1 [] [("c", .list [.str "a"])] [] "c" [.str "a"] [.str "b"]
     [("c", .list [.str "a", .str "b"])] rfl (by simp) (by simp) rfl⟩

/-- Resolving an extended category list yields an extension of the
original resolution: the original urns are a prefix. -/
theorem simCategoryUrns_grows (gm : List (String × Yaml)) (cat : String)
    (g o : List Yaml) (ug u : List String)
    (hg : simCategoryUrns gm cat (.list g) = .ok ug)
    (hu : simCategoryUrns gm cat (.list (g ++ o)) = .ok u) :
    ∃ uo, u = ug ++ uo := by
  unfold simCategoryUrns at hg hu
  rcases except_bind_ok.mp hg with ⟨ig, hig, hg2⟩
  rcases except_bind_ok.mp hu with ⟨iu, hiu, hu2⟩
  have heg : g = ig := by simpa [pyIterE] using hig
  have heu : g ++ o = iu := by simpa [pyIterE] using hiu
  subst heg; subst heu
  rw [List.foldlM_append] at hu2
  rcases except_bind_ok.mp hu2 with ⟨mid, hmid, hu3⟩
  rw [hg2] at hmid
  have hmide : mid = ug := by
    simpa using hmid.symm
  subst hmide
  rw [simCatFold_shift gm cat o mid] at hu3
  rcases hfo : (o.foldlM (fun acc item => do
      match ← simItemUrn gm cat item with
      | some loc => pure (acc ++ [loc])
      | none => pure acc) ([] : List String)) with e | uo
  · rw [hfo] at hu3; exact absurd hu3 (by simp [Except.map])
  · rw [hfo] at hu3
    simp only [Except.map, Except.ok.injEq] at hu3
    exact ⟨uo, hu3.symm⟩

/-- C5. Resolver monotonicity: with no workflow the overlay is empty and
the merge is the identity, so the resolved categories are exactly the
flattened global pools; with a workflow, an untouched category keeps its
global binding (same sequence as the no-workflow run), a touched category
gets the global-plus-overlay concatenation, and the resolved urn multiset
of a touched category contains the no-workflow multiset. -/
theorem claim_C5_monotonic :
    (∀ w : Yaml, simSelect w none = .ok ([], []))
  ∧ (∀ gc : List (String × Yaml), mergeAllModels gc [] = .ok gc)
  ∧ (∀ (gc wfm : List (String × Yaml)) (cat : String) (res : List (String × Yaml)),
       cat ∉ wfm.map Prod.fst → mergeAllModels gc wfm = .ok res →
       lookupAssoc res cat = lookupAssoc gc cat)
  ∧ (∀ (pre gc post : List (String × Yaml)) (cat : String) (g o : List Yaml)
       (res : List (String × Yaml)),
       lookupAssoc gc cat = some (.list g) →
       cat ∉ pre.map Prod.fst → cat ∉ post.map Prod.fst →
       mergeAllModels gc (pre ++ (cat, .list o) :: post) = .ok res →
       lookupAssoc res cat = some (.list (g ++ o)))
  ∧ (∀ (gm : List (String × Yaml)) (cat : String) (g o : List Yaml) (ug u : List String),
       simCategoryUrns gm cat (.list g) = .ok ug →
       simCategoryUrns gm cat (.list (g ++ o)) = .ok u →
       (↑ug : Multiset String) ≤ ↑u) :=
  ⟨fun _ => rfl,
   fun _ => rfl,
   fun gc wfm cat res hmem h => mergeAllModels_untouched wfm gc cat res hmem h,
   fun pre gc post cat g o res hg hpre hpost h =>
     mergeAllModels_touched pre gc post cat g o res hg hpre hpost h,
   fun gm cat g o ug u hg hu => by
     rcases simCategoryUrns_grows gm cat g o ug u hg hu with ⟨uo, he⟩
     subst he
     rw [← Multiset.coe_add]
     exact Multiset.le_add_right _ _⟩

/-- C5, witness: the monotonicity conjuncts applied to concrete one- and
two-category pools with a one-category overlay. -/
theorem claim_C5_witness :
    simSelect (Yaml.list []) none = .ok ([], [])
  ∧ mergeAllModels [("c", Yaml.list [Yaml.str "a"])] [] = .ok [("c", Yaml.list [Yaml.str "a"])]
  ∧ lookupAssoc [("c", Yaml.list [Yaml.str "a", Yaml.str "x"]), ("d", Yaml.list [Yaml.str "b"])] "d"
      = lookupAssoc [("c", Yaml.list [Yaml.str "a"]), ("d", Yaml.list [Yaml.str "b"])] "d"
  ∧ lookupAssoc [("c", Yaml.list [Yaml.str "a", Yaml.str "b"])] "c"
      = some (.list ([Yaml.str "a"] ++ [Yaml.str "b"]))
  ∧ (↑(["a"] : List String) : Multiset String) ≤ ↑(["a", "b"] : List String) :=
  ⟨claim_C5_monotonic.1 (Yaml.list []),
   claim_C5_monotonic.2.1 [("c", Yaml.list [Yaml.str "a"])],
   claim_C5_monotonic.2.2.1 [("c", Yaml.list [Yaml.str "a"]), ("d", Yaml.list [Yaml.str "b"])]
     [("c", Yaml.list [Yaml.str "x"])] "d"
     [("c", Yaml.list [Yaml.str "a", Yaml.str "x"]), ("d", Yaml.list [Yaml.str "b"])]
     (by simp) rfl,
   claim_C5_monotonic.2.2.2.1 [] [("c", Yaml.list [Yaml.str "a"])] [] "c"
     [Yaml.str "a"] [Yaml.str "b"] [("c", Yaml.list [Yaml.str "a", Yaml.str "b"])]
     rfl (by simp) (by simp) rfl,
   claim_C5_monotonic.2.2.2.2 [] "c" [Yaml.str "a"] [Yaml.str "b"] ["a"] ["a", "b"] rfl rfl⟩

/-- The spec-side cross-reference list decomposes into per-workflow
pieces. -/
theorem specCrossRefErrors_decompose (kvs : List (String × Yaml)) :
    specCrossRefErrors kvs =
      (specWorkflowsOf kvs).enum.flatMap
        (specWfCrossRef (specModelsOf kvs) (specNodesOf kvs)) := rfl
/-- Python `==` on two strings is string equality. -/
theorem pyEq_str_str (a b : String) : pyEq (.str a) (.str b) = (a == b) := rfl

/-- The global custom-node ids are the `filterMap` of `idOf`. -/
theorem specGlobalNodeIds_eq_filterMap (nl : List Yaml) :
    specGlobalNodeIds nl = nl.filterMap idOf := rfl

/-- `mapGet?` and the generic assoc lookup agree on Yaml mappings. -/
theorem mapGet?_eq_lookupAssoc (m : List (String × Yaml)) (k : String) :
    mapGet? m k = lookupAssoc m k := by
  induction m with
  | nil => rfl
  | cons hd tl ih =>
      obtain ⟨k0, v0⟩ := hd
      simp only [mapGet?, lookupAssoc]
      by_cases he : k0 = k
      · rw [if_pos he, if_pos he]
      · rw [if_neg he, if_neg he]; exact ih

/-- A well-formed model entry has an absent-or-string `id`. -/
theorem wfEntry_idMentionOk (e : Yaml) (h : wfEntry e = true) : idMentionOk e = true := by
  cases e with
  | map ik =>
      simp only [wfEntry, Bool.and_eq_true] at h
      have h1 := h.1.1.1
      simp only [wfOptField] at h1
      simp only [idMentionOk]
      rcases hid : mapGet? ik "id" with _ | v
      · rfl
      · rw [hid] at h1
        cases v with
        | str s => rfl
        | null => exact absurd h1 (by simp)
        | bool b => exact absurd h1 (by simp)
        | int n => exact absurd h1 (by simp)
        | list l => exact absurd h1 (by simp)
        | map m => exact absurd h1 (by simp)
  | str s => rfl
  | null => rfl
  | bool b => rfl
  | int n => rfl
  | list l => rfl

/-- A well-formed custom-node entry has an absent-or-string `id`. -/
theorem wfNode_idMentionOk (e : Yaml) (h : wfNode e = true) : idMentionOk e = true := by
  cases e with
  | map nk =>
      simp only [wfNode, Bool.and_eq_true] at h
      have h1 := h.1.1
      simp only [wfOptField] at h1
      simp only [idMentionOk]
      rcases hid : mapGet? nk "id" with _ | v
      · rfl
      · rw [hid] at h1
        cases v with
        | str s => rfl
        | null => exact absurd h1 (by simp)
        | bool b => exact absurd h1 (by simp)
        | int n => exact absurd h1 (by simp)
        | list l => exact absurd h1 (by simp)
        | map m => exact absurd h1 (by simp)
  | str s => simp [wfNode] at h
  | null => simp [wfNode] at h
  | bool b => simp [wfNode] at h
  | int n => simp [wfNode] at h
  | list l => simp [wfNode] at h

/-- The id-set fold of the validator succeeds on absent-or-string ids and
its membership is membership in the `filterMap` of `idOf`. -/
theorem idSetFold_corr :
    ∀ (l : List Yaml) (s : List Yaml),
      l.all idMentionOk = true →
      ∃ out,
        (l.foldlM (fun s item =>
          match item with
          | .map ik =>
              match mapGet? ik "id" with
              | some v => pySetAdd s v
              | none => pure s
          | _ => pure s) s) = .ok out ∧
        ∀ r : String, out.any (pyEq (.str r))
          = (s.any (pyEq (.str r)) || (l.filterMap idOf).contains r) := by
  intro l
  induction l with
  | nil =>
      intro s _
      exact ⟨s, rfl, fun r => by simp⟩
  | cons x xs ih =>
      intro s hall
      simp only [List.all_cons, Bool.and_eq_true] at hall
      obtain ⟨hx, hxs⟩ := hall
      cases x with
      | map ik =>
          rcases hid : mapGet? ik "id" with _ | v
          · rcases ih s hxs with ⟨out, hout, hmem⟩
            refine ⟨out, ?_, ?_⟩
            · simp only [List.foldlM_cons, hid]
              exact hout
            · intro r
              rw [hmem r]
              have hio : idOf (.map ik) = none := by simp [idOf, hid]
              simp [List.filterMap_cons, hio]
          · have hv : ∃ i : String, v = .str i := by
              simp only [idMentionOk, hid] at hx
              cases v with
              | str s0 => exact ⟨s0, rfl⟩
              | null => exact absurd hx (by simp)
              | bool b => exact absurd hx (by simp)
              | int n => exact absurd hx (by simp)
              | list l0 => exact absurd hx (by simp)
              | map m0 => exact absurd hx (by simp)
            obtain ⟨i, rfl⟩ := hv
            rcases ih (if s.any (pyEq (.str i)) then s else s ++ [.str i]) hxs with
              ⟨out, hout, hmem⟩
            refine ⟨out, ?_, ?_⟩
            · simp only [List.foldlM_cons, hid, pySetAdd, pyHashable]
              exact hout
            · intro r
              rw [hmem r]
              have hstep : (if s.any (pyEq (.str i)) then s else s ++ [.str i]).any
                  (pyEq (.str r)) = (s.any (pyEq (.str r)) || (r == i)) := by
                by_cases hm : s.any (pyEq (.str i)) = true
                · rw [if_pos hm]
                  by_cases hri : r = i
                  · subst hri; simp [hm]
                  · have : (r == i) = false := by simp [hri]
                    simp [this]
                · rw [if_neg hm, List.any_append]
                  simp [pyEq_str_str]
              rw [hstep]
              have hio : idOf (.map ik) = some i := by simp [idOf, hid]
              simp only [List.filterMap_cons, hio, List.contains_cons]
              rw [Bool.or_assoc]
      | str s0 =>
          rcases ih s hxs with ⟨out, hout, hmem⟩
          exact ⟨out, by simp only [List.foldlM_cons]; exact hout,
            fun r => by rw [hmem r]; simp [List.filterMap_cons, idOf]⟩
      | null =>
          rcases ih s hxs with ⟨out, hout, hmem⟩
          exact ⟨out, by simp only [List.foldlM_cons]; exact hout,
            fun r => by rw [hmem r]; simp [List.filterMap_cons, idOf]⟩
      | bool b =>
          rcases ih s hxs with ⟨out, hout, hmem⟩
          exact ⟨out, by simp only [List.foldlM_cons]; exact hout,
            fun r => by rw [hmem r]; simp [List.filterMap_cons, idOf]⟩
      | int n =>
          rcases ih s hxs with ⟨out, hout, hmem⟩
          exact ⟨out, by simp only [List.foldlM_cons]; exact hout,
            fun r => by rw [hmem r]; simp [List.filterMap_cons, idOf]⟩
      | list l0 =>
          rcases ih s hxs with ⟨out, hout, hmem⟩
          exact ⟨out, by simp only [List.foldlM_cons]; exact hout,
            fun r => by rw [hmem r]; simp [List.filterMap_cons, idOf]⟩
/-- For a non-dir category name the dir-skipping lookup is the plain
lookup. -/
theorem lookupNonDir_eq (mk : List (String × Yaml)) (cat : String)
    (h : ¬(cat = "dest_dir" ∨ cat = "source_dir")) :
    lookupNonDir mk cat = lookupAssoc mk cat := by
  induction mk with
  | nil => rfl
  | cons hd tl ih =>
      obtain ⟨k, v⟩ := hd
      simp only [lookupNonDir, lookupAssoc]
      by_cases hdir : k = "dest_dir" ∨ k = "source_dir"
      · rw [if_pos hdir]
        have hk : ¬ k = cat := fun he => h (he ▸ hdir)
        rw [if_neg hk]
        exact ih
      · rw [if_neg hdir]
        by_cases he : k = cat
        · rw [if_pos he, if_pos he]
        · rw [if_neg he, if_neg he]; exact ih

/-- `dest_dir` / `source_dir` never resolve through the dir-skipping
lookup. -/
theorem lookupNonDir_dir (mk : List (String × Yaml)) (cat : String)
    (h : cat = "dest_dir" ∨ cat = "source_dir") :
    lookupNonDir mk cat = none := by
  induction mk with
  | nil => rfl
  | cons hd tl ih =>
      obtain ⟨k, v⟩ := hd
      simp only [lookupNonDir]
      by_cases hdir : k = "dest_dir" ∨ k = "source_dir"
      · rw [if_pos hdir]; exact ih
      · rw [if_neg hdir]
        have hk : ¬ k = cat := fun he => hdir (he ▸ h)
        rw [if_neg hk]; exact ih

/-- A key whose upper-casing is absent from the upper-cased key list is
unbound. -/
theorem lookupAssoc_of_upper_not_contains (rest : List (String × Yaml)) (k : String)
    (h : (rest.map fun kv => pyUpper kv.1).contains (pyUpper k) = false) :
    lookupAssoc rest k = none := by
  induction rest with
  | nil => rfl
  | cons hd tl ih =>
      obtain ⟨k0, v0⟩ := hd
      simp only [List.map_cons, List.contains_cons, Bool.or_eq_false_iff] at h
      simp only [lookupAssoc]
      have hk : ¬ k0 = k := by
        intro he
        subst he
        simp at h
      rw [if_neg hk]
      exact ih h.2

/-- `addCategoryIds` on a well-formed category list builds a set whose
membership is membership in the category ids. -/
theorem addCategoryIds_corr (v : Yaml) (h : wfCatList v = true) :
    ∃ out, addCategoryIds v = .ok out ∧
      ∀ r : String, out.any (pyEq (.str r)) = (catIds v).contains r := by
  cases v with
  | list l =>
      have hall : l.all idMentionOk = true := by
        simp only [wfCatList] at h
        exact List.all_eq_true.mpr fun e he =>
          wfEntry_idMentionOk e (List.all_eq_true.mp h e he)
      rcases idSetFold_corr l [] hall with ⟨out, hout, hmem⟩
      refine ⟨out, ?_, ?_⟩
      · unfold addCategoryIds
        rw [pyOrY_list_nil]
        exact except_bind_ok.mpr ⟨l, rfl, hout⟩
      · intro r
        rw [hmem r]
        simp [catIds]
  | str s => simp [wfCatList] at h
  | null => simp [wfCatList] at h
  | bool b => simp [wfCatList] at h
  | int n => simp [wfCatList] at h
  | map m => simp [wfCatList] at h

/-- The `available_ids` fold: each non-dir category ends bound to a set
whose membership is its id list, dir categories and unbound names are
untouched. -/
theorem buildIdsFold_corr :
    ∀ (mk : List (String × Yaml)) (acc : List (String × List Yaml)),
      (mk.all fun kv =>
        kv.1 == "dest_dir" || kv.1 == "source_dir" || wfCatList kv.2) = true →
      distinctStrs (mk.map fun kv => pyUpper kv.1) = true →
      ∃ avail,
        (mk.foldlM (fun acc kv =>
          if kv.1 = "dest_dir" ∨ kv.1 = "source_dir" then pure acc
          else do
            let ids ← addCategoryIds kv.2
            pure (upsertAssoc acc kv.1 ids)) acc) = .ok avail ∧
        ∀ cat : String,
          (match lookupNonDir mk cat with
           | none => lookupAssoc avail cat = lookupAssoc acc cat
           | some v => ∃ ids, lookupAssoc avail cat = some ids ∧
               ∀ r : String, ids.any (pyEq (.str r)) = (catIds v).contains r) := by
  intro mk
  induction mk with
  | nil =>
      intro acc _ _
      exact ⟨acc, rfl, fun cat => by simp [lookupNonDir]⟩
  | cons hd rest ih =>
      intro acc hall hdist
      obtain ⟨k, v⟩ := hd
      simp only [List.all_cons, Bool.and_eq_true] at hall
      obtain ⟨hk, hrest⟩ := hall
      simp only [List.map_cons, distinctStrs, Bool.and_eq_true] at hdist
      obtain ⟨hnc, hdrest⟩ := hdist
      by_cases hdir : k = "dest_dir" ∨ k = "source_dir"
      · rcases ih acc hrest hdrest with ⟨avail, hav, hprop⟩
        refine ⟨avail, ?_, ?_⟩
        · simp only [List.foldlM_cons, if_pos hdir]
          exact hav
        · intro cat
          have hln : lookupNonDir ((k, v) :: rest) cat = lookupNonDir rest cat := by
            simp only [lookupNonDir, if_pos hdir]
          rw [hln]
          exact hprop cat
      · have hcl : wfCatList v = true := by
          have h1 : (k == "dest_dir") = false :=
            beq_eq_false_iff_ne.mpr (fun he => hdir (Or.inl he))
          have h2 : (k == "source_dir") = false :=
            beq_eq_false_iff_ne.mpr (fun he => hdir (Or.inr he))
          rw [h1, h2] at hk
          simpa using hk
        rcases addCategoryIds_corr v hcl with ⟨setIds, hset, hsetmem⟩
        rcases ih (upsertAssoc acc k setIds) hrest hdrest with ⟨avail, hav, hprop⟩
        refine ⟨avail, ?_, ?_⟩
        · simp only [List.foldlM_cons, if_neg hdir, hset]
          simp only [Bind.bind, Except.bind, Pure.pure, Except.pure]
          exact hav
        · intro cat
          by_cases hc : k = cat
          · subst hc
            have hln : lookupNonDir ((k, v) :: rest) k = some v := by
              simp [lookupNonDir, hdir]
            rw [hln]
            have hrnone : lookupNonDir rest k = none := by
              rw [lookupNonDir_eq rest k hdir]
              have hcc : (rest.map fun kv => pyUpper kv.1).contains (pyUpper k) = false := by
                simpa using hnc
              exact lookupAssoc_of_upper_not_contains rest k hcc
            have hpk := hprop k
            rw [hrnone] at hpk
            refine ⟨setIds, ?_, hsetmem⟩
            rw [hpk]
            exact lookupAssoc_upsert_self acc k setIds
          · have hln : lookupNonDir ((k, v) :: rest) cat = lookupNonDir rest cat := by
              simp only [lookupNonDir, if_neg hdir, if_neg hc]
            rw [hln]
            have hpc := hprop cat
            rcases hrd : lookupNonDir rest cat with _ | v2
            · rw [hrd] at hpc
              simp only []
              rw [hpc]
              exact lookupAssoc_upsert_ne acc k cat setIds hc
            · rw [hrd] at hpc
              exact hpc

/-- The spec ids of a bound category are the `catIds` of its value. -/
theorem specGlobalModelIds_some (mk : List (String × Yaml)) (cat : String) (v : Yaml)
    (h : lookupAssoc mk cat = some v) : specGlobalModelIds mk cat = catIds v := by
  unfold specGlobalModelIds
  rw [h]
  cases v <;> rfl

/-- An unbound category has no spec ids. -/
theorem specGlobalModelIds_none (mk : List (String × Yaml)) (cat : String)
    (h : lookupAssoc mk cat = none) : specGlobalModelIds mk cat = [] := by
  unfold specGlobalModelIds
  rw [h]

/-- Bool `contains` agrees with list membership on strings. -/
theorem str_contains_iff_mem (l : List String) (r : String) :
    l.contains r = true ↔ r ∈ l := by
  simp

/-- `available_ids` of a well-formed models mapping: per-category sets
with membership equal to the spec ids. -/
theorem buildAvailableIds_corr (mk : List (String × Yaml))
    (h : wfModelsVal (.map mk) = true) :
    ∃ avail, buildAvailableIds (.map mk) = .ok avail ∧
      ∀ cat : String,
        (match lookupNonDir mk cat with
         | none => lookupAssoc avail cat = none
         | some v => ∃ ids, lookupAssoc avail cat = some ids ∧
             ∀ r : String, ids.any (pyEq (.str r)) = (catIds v).contains r) := by
  simp only [wfModelsVal, Bool.and_eq_true] at h
  rcases buildIdsFold_corr mk [] h.1 h.2 with ⟨avail, hav, hprop⟩
  refine ⟨avail, ?_, ?_⟩
  · unfold buildAvailableIds
    exact except_bind_ok.mpr ⟨mk, rfl, hav⟩
  · intro cat
    have hp := hprop cat
    rcases hln : lookupNonDir mk cat with _ | v
    · rw [hln] at hp
      simp only []
      rw [hp]
      rfl
    · rw [hln] at hp
      exact hp

/-- The missing-ref test of the cross-reference pass computes exactly the
negated spec membership. -/
theorem availMissing_corr (mk : List (String × Yaml)) (avail : List (String × List Yaml))
    (hD : wfDirsVal (.map mk) = true)
    (hav : ∀ cat : String,
      (match lookupNonDir mk cat with
       | none => lookupAssoc avail cat = none
       | some v => ∃ ids, lookupAssoc avail cat = some ids ∧
           ∀ r : String, ids.any (pyEq (.str r)) = (catIds v).contains r))
    (cat : String) (r : String) :
    (match lookupAssoc avail cat with
     | none => (pure true : PyResult Bool)
     | some ids => do
         let mem ← pySetMem ids (.str r)
         pure (!mem))
    = .ok (!((specGlobalModelIds mk cat).contains r)) := by
  by_cases hdir : cat = "dest_dir" ∨ cat = "source_dir"
  · have hln := lookupNonDir_dir mk cat hdir
    have hp := hav cat
    rw [hln] at hp
    rw [hp]
    have hspec : specGlobalModelIds mk cat = [] := by
      simp only [wfDirsVal, Bool.and_eq_true] at hD
      rcases hdir with he | he <;> subst he
      · rcases hmg : mapGet? mk "dest_dir" with _ | v
        · exact specGlobalModelIds_none mk _ ((mapGet?_eq_lookupAssoc mk _) ▸ hmg)
        · have hla : lookupAssoc mk "dest_dir" = some v :=
            (mapGet?_eq_lookupAssoc mk _) ▸ hmg
          rw [specGlobalModelIds_some mk _ v hla]
          have h1 := hD.1
          rw [hmg] at h1
          cases v with
          | str s => rfl
          | null => exact absurd h1 (by simp)
          | bool b => exact absurd h1 (by simp)
          | int n => exact absurd h1 (by simp)
          | list l => exact absurd h1 (by simp)
          | map m => exact absurd h1 (by simp)
      · rcases hmg : mapGet? mk "source_dir" with _ | v
        · exact specGlobalModelIds_none mk _ ((mapGet?_eq_lookupAssoc mk _) ▸ hmg)
        · have hla : lookupAssoc mk "source_dir" = some v :=
            (mapGet?_eq_lookupAssoc mk _) ▸ hmg
          rw [specGlobalModelIds_some mk _ v hla]
          have h2 := hD.2
          rw [hmg] at h2
          cases v with
          | str s => rfl
          | null => exact absurd h2 (by simp)
          | bool b => exact absurd h2 (by simp)
          | int n => exact absurd h2 (by simp)
          | list l => exact absurd h2 (by simp)
          | map m => exact absurd h2 (by simp)
    rw [hspec]
    rfl
  · have hle := lookupNonDir_eq mk cat hdir
    have hp := hav cat
    rcases hln : lookupNonDir mk cat with _ | v
    · rw [hln] at hp
      rw [hp]
      have hspec : specGlobalModelIds mk cat = [] :=
        specGlobalModelIds_none mk cat (hle ▸ hln)
      rw [hspec]
      rfl
    · rw [hln] at hp
      rcases hp with ⟨ids, hid, hm⟩
      have hspec : specGlobalModelIds mk cat = catIds v :=
        specGlobalModelIds_some mk cat v (hle ▸ hln)
      have hsm : pySetMem ids (.str r) = .ok (ids.any (pyEq (.str r))) := by
        simp [pySetMem, pyHashable]
      rw [hid, hspec]
      show (pySetMem ids (.str r) >>= fun mem => (pure (!mem) : PyResult Bool))
          = .ok (!((catIds v).contains r))
      rw [hsm, hm r]
      rfl

/-- `m or {}` on a mapping is the mapping itself. -/
theorem pyOrY_map_nil (m : List (String × Yaml)) : pyOrY (.map m) (.map []) = .map m := by
  cases m <;> rfl

/-- The payload of an `enumFrom` pair is a member of the list. -/
theorem snd_mem_of_mem_enumFrom {α : Type} :
    ∀ (l : List α) (n : Nat) (p : Nat × α), p ∈ l.enumFrom n → p.2 ∈ l := by
  intro l
  induction l with
  | nil => intro n p h; simp [List.enumFrom] at h
  | cons x xs ih =>
      intro n p h
      simp only [List.enumFrom, List.mem_cons] at h
      rcases h with h | h
      · subst h; exact List.mem_cons_self _ _
      · exact List.mem_cons_of_mem _ (ih (n + 1) p h)

/-- The payload of an `enum` pair is a member of the list. -/
theorem snd_mem_of_mem_enum {α : Type} (l : List α) (p : Nat × α) (h : p ∈ l.enum) :
    p.2 ∈ l := snd_mem_of_mem_enumFrom l 0 p h

/-- A well-formed model entry with a `ref` carries a string ref. -/
theorem wfEntry_ref_str (ik : List (String × Yaml)) (h : wfEntry (.map ik) = true)
    (v : Yaml) (hr : mapGet? ik "ref" = some v) : ∃ r : String, v = .str r := by
  simp only [wfEntry, Bool.and_eq_true] at h
  have h1 := h.2
  simp only [wfOptField, hr] at h1
  cases v with
  | str s => exact ⟨s, rfl⟩
  | null => exact absurd h1 (by simp)
  | bool b => exact absurd h1 (by simp)
  | int n => exact absurd h1 (by simp)
  | list l => exact absurd h1 (by simp)
  | map m => exact absurd h1 (by simp)

/-- With distinct (even after upper-casing) keys, every binding is what
the mapping lookup finds. -/
theorem mapGet?_of_mem_distinct :
    ∀ (mk : List (String × Yaml)),
      distinctStrs (mk.map fun kv => pyUpper kv.1) = true →
      ∀ kv ∈ mk, mapGet? mk kv.1 = some kv.2 := by
  intro mk
  induction mk with
  | nil => intro _ kv h; simp at h
  | cons hd tl ih =>
      intro hdist kv hm
      obtain ⟨k, v⟩ := hd
      simp only [List.map_cons, distinctStrs, Bool.and_eq_true] at hdist
      obtain ⟨hnc, hdtl⟩ := hdist
      rcases List.mem_cons.mp hm with he | hm2
      · subst he
        simp [mapGet?]
      · have hk : ¬ k = kv.1 := by
          intro he
          have hmem : pyUpper kv.1 ∈ tl.map fun kv => pyUpper kv.1 :=
            List.mem_map.mpr ⟨kv, hm2, rfl⟩
          have hc : (tl.map fun kv => pyUpper kv.1).contains (pyUpper k) = true := by
            rw [List.contains_iff_exists_mem_beq]
            refine ⟨pyUpper kv.1, hmem, ?_⟩
            rw [he]
            exact beq_self_eq_true _
          rw [hc] at hnc
          simp at hnc
        simp only [mapGet?, if_neg hk]
        exact ih hdtl kv hm2

/-- The per-item ref-check fold over one workflow category equals the
spec item messages appended to the accumulator. -/
theorem wfItemsFold_corr
    (avail : List (String × List Yaml)) (mk : List (String × Yaml))
    (hmiss : ∀ cat r : String,
      (match lookupAssoc avail cat with
       | none => (pure true : PyResult Bool)
       | some ids => do
           let mem ← pySetMem ids (.str r)
           pure (!mem))
      = .ok (!((specGlobalModelIds mk cat).contains r)))
    (wf_idx : Nat) (cat : String) :
    ∀ (ps : List (Nat × Yaml)) (acc2 : List String),
      (∀ p ∈ ps, wfEntry p.2 = true) →
      (ps.foldlM (fun acc2 p =>
        match p.2 with
        | .map ik =>
            match mapGet? ik "ref" with
            | some ref_id => do
                let missing ← (match lookupAssoc avail cat with
                               | none => pure true
                               | some ids => do
                                   let mem ← pySetMem ids ref_id
                                   pure (!mem))
                if missing then
                  pure (acc2 ++ ["workflows[" ++ toString wf_idx ++ "].models." ++ cat ++
                    "[" ++ toString p.1 ++ "] ref \x27" ++ pyStr ref_id ++
                    "\x27 not found in models." ++ cat])
                else pure acc2
            | none => pure acc2
        | _ => pure acc2) acc2)
      = .ok (acc2 ++ ps.filterMap (specModelRefItem mk wf_idx cat)) := by
  intro ps
  induction ps with
  | nil => intro acc2 _; simp [Pure.pure, Except.pure]
  | cons p rest ih =>
      intro acc2 hall
      have hp := hall p (List.mem_cons_self _ _)
      have hrest : ∀ q ∈ rest, wfEntry q.2 = true :=
        fun q hq => hall q (List.mem_cons_of_mem _ hq)
      obtain ⟨j, item⟩ := p
      rw [List.foldlM_cons]
      cases item with
      | map ik =>
          rcases href : mapGet? ik "ref" with _ | v
          · refine except_bind_ok.mpr ⟨acc2, by simp [href, Pure.pure, Except.pure], ?_⟩
            rw [ih acc2 hrest]
            simp [specModelRefItem, List.filterMap_cons, href]
          · obtain ⟨r, rfl⟩ := wfEntry_ref_str ik hp v href
            by_cases hcont : ((specGlobalModelIds mk cat).contains r) = true
            · refine except_bind_ok.mpr ⟨acc2, ?_, ?_⟩
              · simp only [href]
                show ((match lookupAssoc avail cat with
                       | none => (pure true : PyResult Bool)
                       | some ids => do
                           let mem ← pySetMem ids (.str r)
                           pure (!mem)) >>= fun missing =>
                       if missing then
                         pure (acc2 ++ ["workflows[" ++ toString wf_idx ++ "].models." ++
                           cat ++ "[" ++ toString j ++ "] ref \x27" ++ pyStr (.str r) ++
                           "\x27 not found in models." ++ cat])
                       else pure acc2)
                    = Except.ok acc2
                rw [hmiss cat r, hcont]
                rfl
              · rw [ih acc2 hrest]
                have hmem : r ∈ specGlobalModelIds mk cat :=
                  (str_contains_iff_mem _ _).mp hcont
                simp [specModelRefItem, List.filterMap_cons, href, hmem]
            · refine except_bind_ok.mpr
                ⟨acc2 ++ ["workflows[" ++ toString wf_idx ++ "].models." ++ cat ++
                  "[" ++ toString j ++ "] ref \x27" ++ r ++
                  "\x27 not found in models." ++ cat], ?_, ?_⟩
              · simp only [href]
                show ((match lookupAssoc avail cat with
                       | none => (pure true : PyResult Bool)
                       | some ids => do
                           let mem ← pySetMem ids (.str r)
                           pure (!mem)) >>= fun missing =>
                       if missing then
                         pure (acc2 ++ ["workflows[" ++ toString wf_idx ++ "].models." ++
                           cat ++ "[" ++ toString j ++ "] ref \x27" ++ pyStr (.str r) ++
                           "\x27 not found in models." ++ cat])
                       else pure acc2)
                    = Except.ok (acc2 ++ ["workflows[" ++ toString wf_idx ++ "].models." ++
                        cat ++ "[" ++ toString j ++ "] ref \x27" ++ r ++
                        "\x27 not found in models." ++ cat])
                rw [hmiss cat r]
                have hcf : ((specGlobalModelIds mk cat).contains r) = false :=
                  Bool.not_eq_true _ ▸ eq_false_of_ne_true hcont
                rw [hcf]
                rfl
              · rw [ih _ hrest]
                have hmem : ¬ r ∈ specGlobalModelIds mk cat := by
                  intro hm
                  exact hcont ((str_contains_iff_mem _ _).mpr hm)
                simp [specModelRefItem, List.filterMap_cons, href, hmem, List.append_assoc]
      | str s =>
          refine except_bind_ok.mpr ⟨acc2, by simp [Pure.pure, Except.pure], ?_⟩
          rw [ih acc2 hrest]
          simp [specModelRefItem, List.filterMap_cons]
      | null => exact absurd hp (by simp [wfEntry])
      | bool b => exact absurd hp (by simp [wfEntry])
      | int n => exact absurd hp (by simp [wfEntry])
      | list l => exact absurd hp (by simp [wfEntry])

/-- The item fold ignores a list of plain strings (as produced by
iterating a string-valued dir entry). -/
theorem itemsFold_skip
    (avail : List (String × List Yaml)) (wf_idx : Nat) (cat : String) :
    ∀ (ps : List (Nat × Yaml)) (acc2 : List String),
      (∀ p ∈ ps, ∃ s : String, p.2 = .str s) →
      (ps.foldlM (fun acc2 p =>
        match p.2 with
        | .map ik =>
            match mapGet? ik "ref" with
            | some ref_id => do
                let missing ← (match lookupAssoc avail cat with
                               | none => pure true
                               | some ids => do
                                   let mem ← pySetMem ids ref_id
                                   pure (!mem))
                if missing then
                  pure (acc2 ++ ["workflows[" ++ toString wf_idx ++ "].models." ++ cat ++
                    "[" ++ toString p.1 ++ "] ref \x27" ++ pyStr ref_id ++
                    "\x27 not found in models." ++ cat])
                else pure acc2
            | none => pure acc2
        | _ => pure acc2) acc2)
      = .ok acc2 := by
  intro ps
  induction ps with
  | nil => intro acc2 _; rfl
  | cons p rest ih =>
      intro acc2 hall
      obtain ⟨j, item⟩ := p
      obtain ⟨s, hs⟩ := hall (j, item) (List.mem_cons_self _ _)
      simp only at hs
      subst hs
      rw [List.foldlM_cons]
      refine except_bind_ok.mpr ⟨acc2, rfl, ?_⟩
      exact ih acc2 (fun q hq => hall q (List.mem_cons_of_mem _ hq))

/-- The per-category fold over a workflow models mapping accumulates
exactly the spec violations of its categories. -/
theorem wfCatFold_corr
    (avail : List (String × List Yaml)) (mk : List (String × Yaml))
    (hmiss : ∀ cat r : String,
      (match lookupAssoc avail cat with
       | none => (pure true : PyResult Bool)
       | some ids => do
           let mem ← pySetMem ids (.str r)
           pure (!mem))
      = .ok (!((specGlobalModelIds mk cat).contains r)))
    (wf_idx : Nat) :
    ∀ (l : List (String × Yaml)) (acc : List String),
      (∀ kv ∈ l, ((kv.1 = "dest_dir" ∨ kv.1 = "source_dir") → ∃ s : String, kv.2 = .str s) ∧
        (¬(kv.1 = "dest_dir" ∨ kv.1 = "source_dir") → wfCatList kv.2 = true)) →
      (l.foldlM (fun (acc : List String) (kv : String × Yaml) => do
        let items ← pyIterE (pyOrY kv.2 (.list []))
        let errs ← items.enum.foldlM (fun (acc2 : List String) (p : Nat × Yaml) =>
          match p.2 with
          | .map ik =>
              match mapGet? ik "ref" with
              | some ref_id => do
                  let missing ← (match lookupAssoc avail kv.1 with
                                 | none => pure true
                                 | some ids => do
                                     let mem ← pySetMem ids ref_id
                                     pure (!mem))
                  if missing then
                    pure (acc2 ++ ["workflows[" ++ toString wf_idx ++ "].models." ++ kv.1 ++
                      "[" ++ toString p.1 ++ "] ref \x27" ++ pyStr ref_id ++
                      "\x27 not found in models." ++ kv.1])
                  else pure acc2
              | none => pure acc2
          | _ => pure acc2) []
        pure (acc ++ errs)) acc)
      = .ok (acc ++ l.flatMap (specModelRefCat mk wf_idx)) := by
  intro l
  induction l with
  | nil => intro acc _; simp [Pure.pure, Except.pure]
  | cons kv rest ih =>
      intro acc hall
      have hkv := hall kv (List.mem_cons_self _ _)
      have hrest : ∀ q ∈ rest, _ := fun q hq => hall q (List.mem_cons_of_mem _ hq)
      obtain ⟨k, v⟩ := kv
      rw [List.foldlM_cons]
      by_cases hdir : k = "dest_dir" ∨ k = "source_dir"
      · obtain ⟨s, hs⟩ := hkv.1 hdir
        simp only at hs
        subst hs
        have hiter : ∃ its : List Yaml,
            pyIterE (pyOrY (.str s) (.list [])) = .ok its ∧
            ∀ x ∈ its, ∃ c : String, x = .str c := by
          by_cases hse : s = ""
          · subst hse
            exact ⟨[], rfl, by simp⟩
          · refine ⟨s.data.map fun c => .str (String.mk [c]), ?_, ?_⟩
            · simp [pyOrY, pyTruthy, hse, pyIterE]
            · intro x hx
              rcases List.mem_map.mp hx with ⟨c, _, rfl⟩
              exact ⟨_, rfl⟩
        obtain ⟨its, hits, hstr⟩ := hiter
        refine except_bind_ok.mpr ⟨acc, ?_, ?_⟩
        · refine except_bind_ok.mpr ⟨its, hits, ?_⟩
          refine except_bind_ok.mpr ⟨[], ?_, by simp [Pure.pure, Except.pure]⟩
          exact itemsFold_skip avail wf_idx k its.enum []
            (fun p hp => hstr p.2 (snd_mem_of_mem_enum its p hp))
        · rw [ih acc hrest]
          simp [specModelRefCat, List.flatMap_cons]
      · have hcl : wfCatList v = true := hkv.2 hdir
        cases v with
        | list items =>
            have hwfe : ∀ p ∈ items.enum, wfEntry p.2 = true := by
              intro p hp
              simp only [wfCatList] at hcl
              exact List.all_eq_true.mp hcl p.2 (snd_mem_of_mem_enum items p hp)
            have hfold := wfItemsFold_corr avail mk hmiss wf_idx k items.enum [] hwfe
            refine except_bind_ok.mpr
              ⟨acc ++ items.enum.filterMap (specModelRefItem mk wf_idx k), ?_, ?_⟩
            · rw [pyOrY_list_nil]
              refine except_bind_ok.mpr ⟨items, rfl, ?_⟩
              refine except_bind_ok.mpr ⟨_, hfold, ?_⟩
              simp [Pure.pure, Except.pure]
            · rw [ih _ hrest]
              simp [specModelRefCat, List.flatMap_cons, List.append_assoc]
        | str s0 => exact absurd hcl (by simp [wfCatList])
        | null => exact absurd hcl (by simp [wfCatList])
        | bool b => exact absurd hcl (by simp [wfCatList])
        | int n => exact absurd hcl (by simp [wfCatList])
        | map m0 => exact absurd hcl (by simp [wfCatList])

/-- The workflow model-ref check equals the spec violations of the
workflow models mapping. -/
theorem wfModelRefErrors_corr (wf_idx : Nat) (avail : List (String × List Yaml))
    (mk : List (String × Yaml))
    (hmiss : ∀ cat r : String,
      (match lookupAssoc avail cat with
       | none => (pure true : PyResult Bool)
       | some ids => do
           let mem ← pySetMem ids (.str r)
           pure (!mem))
      = .ok (!((specGlobalModelIds mk cat).contains r)))
    (mkw : List (String × Yaml))
    (hw : wfModelsVal (.map mkw) = true) (hwD : wfDirsVal (.map mkw) = true) :
    wfModelRefErrors wf_idx avail (.map mkw)
      = .ok (mkw.flatMap (specModelRefCat mk wf_idx)) := by
  have hwc := hw
  simp only [wfModelsVal, Bool.and_eq_true] at hwc
  have hvals : ∀ kv ∈ mkw,
      ((kv.1 = "dest_dir" ∨ kv.1 = "source_dir") → ∃ s : String, kv.2 = .str s) ∧
      (¬(kv.1 = "dest_dir" ∨ kv.1 = "source_dir") → wfCatList kv.2 = true) := by
    intro kv hm
    constructor
    · intro hdir
      have hget := mapGet?_of_mem_distinct mkw hwc.2 kv hm
      simp only [wfDirsVal, Bool.and_eq_true] at hwD
      rcases hdir with he | he
      · rw [he] at hget
        have h1 := hwD.1
        rw [hget] at h1
        rcases hk2 : kv.2 with _ | _ | _ | s | _ | _ <;> rw [hk2] at h1
        · exact absurd h1 (by simp)
        · exact absurd h1 (by simp)
        · exact absurd h1 (by simp)
        · exact ⟨s, rfl⟩
        · exact absurd h1 (by simp)
        · exact absurd h1 (by simp)
      · rw [he] at hget
        have h2 := hwD.2
        rw [hget] at h2
        rcases hk2 : kv.2 with _ | _ | _ | s | _ | _ <;> rw [hk2] at h2
        · exact absurd h2 (by simp)
        · exact absurd h2 (by simp)
        · exact absurd h2 (by simp)
        · exact ⟨s, rfl⟩
        · exact absurd h2 (by simp)
        · exact absurd h2 (by simp)
    · intro hdir
      have hall := List.all_eq_true.mp hwc.1 kv hm
      have e1 : (kv.1 == "dest_dir") = false :=
        beq_eq_false_iff_ne.mpr (fun he => hdir (Or.inl he))
      have e2 : (kv.1 == "source_dir") = false :=
        beq_eq_false_iff_ne.mpr (fun he => hdir (Or.inr he))
      rw [e1, e2] at hall
      simpa using hall
  unfold wfModelRefErrors
  rw [pyOrY_map_nil]
  refine except_bind_ok.mpr ⟨mkw, rfl, ?_⟩
  rw [wfCatFold_corr avail mk hmiss wf_idx mkw [] hvals]
  simp

/-- A well-formed custom-node entry with a `ref` carries a string ref. -/
theorem wfNode_ref_str (nk : List (String × Yaml)) (h : wfNode (.map nk) = true)
    (v : Yaml) (hr : mapGet? nk "ref" = some v) : ∃ r : String, v = .str r := by
  simp only [wfNode, Bool.and_eq_true] at h
  have h1 := h.1.2
  simp only [wfOptField, hr] at h1
  cases v with
  | str s => exact ⟨s, rfl⟩
  | null => exact absurd h1 (by simp)
  | bool b => exact absurd h1 (by simp)
  | int n => exact absurd h1 (by simp)
  | list l => exact absurd h1 (by simp)
  | map m => exact absurd h1 (by simp)

/-- The global custom-node id set: membership equals the spec node
ids. -/
theorem buildAvailableCustomNodeIds_corr (nl : List Yaml) (h : nl.all wfNode = true) :
    ∃ s, buildAvailableCustomNodeIds (.list nl) = .ok s ∧
      ∀ r : String, s.any (pyEq (.str r)) = (specGlobalNodeIds nl).contains r := by
  have hall : nl.all idMentionOk = true :=
    List.all_eq_true.mpr fun e he =>
      wfNode_idMentionOk e (List.all_eq_true.mp h e he)
  rcases idSetFold_corr nl [] hall with ⟨out, hout, hmem⟩
  refine ⟨out, ?_, ?_⟩
  · unfold buildAvailableCustomNodeIds
    exact except_bind_ok.mpr ⟨nl, rfl, hout⟩
  · intro r
    rw [hmem r, specGlobalNodeIds_eq_filterMap]
    simp

/-- The per-node ref-check fold equals the spec node messages appended to
the accumulator. -/
theorem wfNodeItemsFold_corr (availCN : List Yaml) (nodes : List Yaml)
    (hcn : ∀ r : String, availCN.any (pyEq (.str r)) = (specGlobalNodeIds nodes).contains r)
    (wf_idx : Nat) :
    ∀ (ps : List (Nat × Yaml)) (acc : List String),
      (∀ p ∈ ps, wfNode p.2 = true) →
      (ps.foldlM (fun acc p =>
        match p.2 with
        | .map nk =>
            match mapGet? nk "ref" with
            | some ref_id => do
                let mem ← pySetMem availCN ref_id
                if mem then pure acc
                else
                  pure (acc ++ ["workflows[" ++ toString wf_idx ++ "].custom_nodes[" ++
                    toString p.1 ++ "] ref \x27" ++ pyStr ref_id ++
                    "\x27 not found in global custom_nodes"])
            | none => pure acc
        | _ => pure acc) acc)
      = .ok (acc ++ ps.filterMap (specNodeRefItem nodes wf_idx)) := by
  intro ps
  induction ps with
  | nil => intro acc _; simp [Pure.pure, Except.pure]
  | cons p rest ih =>
      intro acc hall
      have hp := hall p (List.mem_cons_self _ _)
      have hrest : ∀ q ∈ rest, wfNode q.2 = true :=
        fun q hq => hall q (List.mem_cons_of_mem _ hq)
      obtain ⟨j, item⟩ := p
      rw [List.foldlM_cons]
      cases item with
      | map nk =>
          rcases href : mapGet? nk "ref" with _ | v
          · refine except_bind_ok.mpr ⟨acc, by simp [href, Pure.pure, Except.pure], ?_⟩
            rw [ih acc hrest]
            simp [specNodeRefItem, List.filterMap_cons, href]
          · obtain ⟨r, rfl⟩ := wfNode_ref_str nk hp v href
            have hsm : pySetMem availCN (.str r)
                = .ok ((specGlobalNodeIds nodes).contains r) := by
              rw [← hcn r]
              simp [pySetMem, pyHashable]
            by_cases hcont : ((specGlobalNodeIds nodes).contains r) = true
            · refine except_bind_ok.mpr ⟨acc, ?_, ?_⟩
              · simp only [href]
                show (pySetMem availCN (.str r) >>= fun mem =>
                      if mem then pure acc
                      else pure (acc ++ ["workflows[" ++ toString wf_idx ++
                        "].custom_nodes[" ++ toString j ++ "] ref \x27" ++
                        pyStr (.str r) ++ "\x27 not found in global custom_nodes"]))
                    = Except.ok acc
                rw [hsm, hcont]
                rfl
              · rw [ih acc hrest]
                have hmem : r ∈ specGlobalNodeIds nodes :=
                  (str_contains_iff_mem _ _).mp hcont
                simp [specNodeRefItem, List.filterMap_cons, href, hmem]
            · refine except_bind_ok.mpr
                ⟨acc ++ ["workflows[" ++ toString wf_idx ++ "].custom_nodes[" ++
                  toString j ++ "] ref \x27" ++ r ++
                  "\x27 not found in global custom_nodes"], ?_, ?_⟩
              · simp only [href]
                show (pySetMem availCN (.str r) >>= fun mem =>
                      if mem then pure acc
                      else pure (acc ++ ["workflows[" ++ toString wf_idx ++
                        "].custom_nodes[" ++ toString j ++ "] ref \x27" ++
                        pyStr (.str r) ++ "\x27 not found in global custom_nodes"]))
                    = Except.ok (acc ++ ["workflows[" ++ toString wf_idx ++
                        "].custom_nodes[" ++ toString j ++ "] ref \x27" ++ r ++
                        "\x27 not found in global custom_nodes"])
                rw [hsm]
                have hcf : ((specGlobalNodeIds nodes).contains r) = false :=
                  eq_false_of_ne_true hcont
                rw [hcf]
                rfl
              · rw [ih _ hrest]
                have hmem : ¬ r ∈ specGlobalNodeIds nodes := by
                  intro hm
                  exact hcont ((str_contains_iff_mem _ _).mpr hm)
                simp [specNodeRefItem, List.filterMap_cons, href, hmem,
                  List.append_assoc]
      | str s =>
          refine except_bind_ok.mpr ⟨acc, by simp [Pure.pure, Except.pure], ?_⟩
          rw [ih acc hrest]
          simp [specNodeRefItem, List.filterMap_cons]
      | null => exact absurd hp (by simp [wfNode])
      | bool b => exact absurd hp (by simp [wfNode])
      | int n => exact absurd hp (by simp [wfNode])
      | list l => exact absurd hp (by simp [wfNode])

/-- The workflow custom-node ref check equals the spec node violations. -/
theorem wfNodeRefErrors_corr (wf_idx : Nat) (availCN : List Yaml) (nodes : List Yaml)
    (hcn : ∀ r : String, availCN.any (pyEq (.str r)) = (specGlobalNodeIds nodes).contains r)
    (nlw : List Yaml) (hwn : nlw.all wfNode = true) :
    wfNodeRefErrors wf_idx availCN (.list nlw)
      = .ok (nlw.enum.filterMap (specNodeRefItem nodes wf_idx)) := by
  unfold wfNodeRefErrors
  rw [pyOrY_list_nil]
  refine except_bind_ok.mpr ⟨nlw, rfl, ?_⟩
  rw [wfNodeItemsFold_corr availCN nodes hcn wf_idx nlw.enum []
    (fun p hp => List.all_eq_true.mp hwn p.2 (snd_mem_of_mem_enum nlw p hp))]
  simp

/-- The fold over all workflows accumulates exactly the per-workflow spec
cross-reference violations. -/
theorem wfsFold_corr (avail : List (String × List Yaml)) (availCN : List Yaml)
    (mk : List (String × Yaml)) (nodes : List Yaml)
    (hmiss : ∀ cat r : String,
      (match lookupAssoc avail cat with
       | none => (pure true : PyResult Bool)
       | some ids => do
           let mem ← pySetMem ids (.str r)
           pure (!mem))
      = .ok (!((specGlobalModelIds mk cat).contains r)))
    (hcn : ∀ r : String, availCN.any (pyEq (.str r)) = (specGlobalNodeIds nodes).contains r) :
    ∀ (wps : List (Nat × Yaml)) (acc : List String),
      (∀ p ∈ wps, wfWorkflow p.2 = true) →
      (∀ p ∈ wps, (match p.2 with
        | .map wk => wfDirsVal (mapGetD wk "models" (.map []))
        | _ => true) = true) →
      (wps.foldlM (fun (acc : List String) (p : Nat × Yaml) =>
        match p.2 with
        | .map wkvs => do
            let mErrs ← wfModelRefErrors p.1 avail (mapGetD wkvs "models" (.map []))
            let nErrs ← wfNodeRefErrors p.1 availCN
              (mapGetD wkvs "custom_nodes" (.list []))
            pure (acc ++ mErrs ++ nErrs)
        | _ => pure acc) acc)
      = .ok (acc ++ wps.flatMap (specWfCrossRef mk nodes)) := by
  intro wps
  induction wps with
  | nil => intro acc _ _; simp [Pure.pure, Except.pure]
  | cons p rest ih =>
      intro acc hall hdirs
      have hp := hall p (List.mem_cons_self _ _)
      have hd := hdirs p (List.mem_cons_self _ _)
      have hrest := fun q hq => hall q (List.mem_cons_of_mem p hq)
      have hdrest := fun q hq => hdirs q (List.mem_cons_of_mem p hq)
      obtain ⟨i, wf⟩ := p
      rw [List.foldlM_cons]
      cases wf with
      | map wk =>
          simp only [wfWorkflow, Bool.and_eq_true] at hp
          have hmv : ∃ mkw : List (String × Yaml),
              mapGetD wk "models" (.map []) = .map mkw ∧
              wfModelsVal (.map mkw) = true ∧
              specWfModelsOf wk = mkw := by
            rcases hm : mapGet? wk "models" with _ | v
            · exact ⟨[], by simp [mapGetD, hm], by decide, by simp [specWfModelsOf, hm]⟩
            · have hwv := hp.1
              rw [hm] at hwv
              cases v with
              | map mkw =>
                  exact ⟨mkw, by simp [mapGetD, hm], hwv, by simp [specWfModelsOf, hm]⟩
              | str s => exact absurd hwv (by simp [wfModelsVal])
              | null => exact absurd hwv (by simp [wfModelsVal])
              | bool b => exact absurd hwv (by simp [wfModelsVal])
              | int n => exact absurd hwv (by simp [wfModelsVal])
              | list l => exact absurd hwv (by simp [wfModelsVal])
          have hnv : ∃ nlw : List Yaml,
              mapGetD wk "custom_nodes" (.list []) = .list nlw ∧
              nlw.all wfNode = true ∧
              specWfNodesOf wk = nlw := by
            rcases hn : mapGet? wk "custom_nodes" with _ | v
            · exact ⟨[], by simp [mapGetD, hn], rfl, by simp [specWfNodesOf, hn]⟩
            · have hwv := hp.2
              rw [hn] at hwv
              cases v with
              | list nlw =>
                  exact ⟨nlw, by simp [mapGetD, hn], hwv, by simp [specWfNodesOf, hn]⟩
              | str s => exact absurd hwv (by simp)
              | null => exact absurd hwv (by simp)
              | bool b => exact absurd hwv (by simp)
              | int n => exact absurd hwv (by simp)
              | map m => exact absurd hwv (by simp)
          obtain ⟨mkw, hmkw, hwfm, hsm⟩ := hmv
          obtain ⟨nlw, hnlw, hwfn, hsn⟩ := hnv
          have hwD : wfDirsVal (.map mkw) = true := by
            simp only at hd
            rw [hmkw] at hd
            exact hd
          refine except_bind_ok.mpr
            ⟨acc ++ mkw.flatMap (specModelRefCat mk i) ++
              nlw.enum.filterMap (specNodeRefItem nodes i), ?_, ?_⟩
          · show ((do
                let mErrs ← wfModelRefErrors i avail (mapGetD wk "models" (.map []))
                let nErrs ← wfNodeRefErrors i availCN
                  (mapGetD wk "custom_nodes" (.list []))
                pure (acc ++ mErrs ++ nErrs)) : PyResult (List String))
              = Except.ok (acc ++ mkw.flatMap (specModelRefCat mk i) ++
                  nlw.enum.filterMap (specNodeRefItem nodes i))
            rw [hmkw]
            refine except_bind_ok.mpr
              ⟨mkw.flatMap (specModelRefCat mk i),
               wfModelRefErrors_corr i avail mk hmiss mkw hwfm hwD, ?_⟩
            rw [hnlw]
            refine except_bind_ok.mpr
              ⟨nlw.enum.filterMap (specNodeRefItem nodes i),
               wfNodeRefErrors_corr i availCN nodes hcn nlw hwfn, ?_⟩
            rfl
          · rw [ih _ hrest hdrest]
            have hspec : specWfCrossRef mk nodes (i, .map wk)
                = mkw.flatMap (specModelRefCat mk i) ++
                  nlw.enum.filterMap (specNodeRefItem nodes i) := by
              simp [specWfCrossRef, hsm, hsn]
            simp [List.flatMap_cons, hspec, List.append_assoc]
      | str s =>
          refine except_bind_ok.mpr ⟨acc, rfl, ?_⟩
          rw [ih acc hrest hdrest]
          simp [specWfCrossRef, List.flatMap_cons]
      | null =>
          refine except_bind_ok.mpr ⟨acc, rfl, ?_⟩
          rw [ih acc hrest hdrest]
          simp [specWfCrossRef, List.flatMap_cons]
      | bool b =>
          refine except_bind_ok.mpr ⟨acc, rfl, ?_⟩
          rw [ih acc hrest hdrest]
          simp [specWfCrossRef, List.flatMap_cons]
      | int n =>
          refine except_bind_ok.mpr ⟨acc, rfl, ?_⟩
          rw [ih acc hrest hdrest]
          simp [specWfCrossRef, List.flatMap_cons]
      | list l =>
          refine except_bind_ok.mpr ⟨acc, rfl, ?_⟩
          rw [ih acc hrest hdrest]
          simp [specWfCrossRef, List.flatMap_cons]

/-- C6. On a well-formed manifest (with string `dest_dir`/`source_dir`
fields) the validator's cross-reference pass emits exactly the
cross-reference contract's violations: per category the global-entry id
set, one `ref not found` message naming workflow index, category, item
index and missing id exactly when the ref value (compared by exact string
equality) is absent, and symmetrically for workflow custom-node refs
against the global custom-node ids. -/
theorem claim_C6_crossref_exact :
    ∀ (kvs : List (String × Yaml)),
      wfManifest (.map kvs) = true →
      wfManifestDirs kvs = true →
      crossRefErrors kvs = .ok (specCrossRefErrors kvs) := by
  intro kvs hwf hdirs
  have hwfc := hwf
  simp only [wfManifest, Bool.and_eq_true] at hwfc
  simp only [wfManifestDirs, Bool.and_eq_true] at hdirs
  have hmodels : ∃ mkS : List (String × Yaml),
      pyOrY (mapGetD kvs "models" (.map [])) (.map []) = .map mkS ∧
      wfModelsVal (.map mkS) = true ∧
      wfDirsVal (.map mkS) = true ∧
      specModelsOf kvs = mkS := by
    have hd1 := hdirs.1
    rcases hm : mapGet? kvs "models" with _ | v
    · exact ⟨[], by simp [mapGetD, hm, pyOrY, pyTruthy], by decide, by decide,
        by simp [specModelsOf, hm]⟩
    · have h1 := hwfc.1.1
      rw [hm] at h1
      rw [mapGetD, hm] at hd1
      cases v with
      | map mkS =>
          refine ⟨mkS, ?_, h1, ?_, by simp [specModelsOf, hm]⟩
          · rw [mapGetD, hm]
            simp only [Option.getD]
            exact pyOrY_map_nil mkS
          · simpa using hd1
      | str s => exact absurd h1 (by simp [wfModelsVal])
      | null => exact absurd h1 (by simp [wfModelsVal])
      | bool b => exact absurd h1 (by simp [wfModelsVal])
      | int n => exact absurd h1 (by simp [wfModelsVal])
      | list l => exact absurd h1 (by simp [wfModelsVal])
  have hnodes : ∃ nlS : List Yaml,
      pyOrY (mapGetD kvs "custom_nodes" (.list [])) (.list []) = .list nlS ∧
      nlS.all wfNode = true ∧
      specNodesOf kvs = nlS := by
    rcases hn : mapGet? kvs "custom_nodes" with _ | v
    · exact ⟨[], by simp [mapGetD, hn, pyOrY, pyTruthy], rfl,
        by simp [specNodesOf, hn]⟩
    · have h2 := hwfc.1.2
      rw [hn] at h2
      cases v with
      | list nlS =>
          refine ⟨nlS, ?_, h2, by simp [specNodesOf, hn]⟩
          rw [mapGetD, hn]
          simp only [Option.getD]
          exact pyOrY_list_nil nlS
      | str s => exact absurd h2 (by simp)
      | null => exact absurd h2 (by simp)
      | bool b => exact absurd h2 (by simp)
      | int n => exact absurd h2 (by simp)
      | map m => exact absurd h2 (by simp)
  have hwfs : ∃ wlS : List Yaml,
      pyOrY (mapGetD kvs "workflows" (.list [])) (.list []) = .list wlS ∧
      wlS.all wfWorkflow = true ∧
      specWorkflowsOf kvs = wlS ∧
      (wlS.all fun wf =>
        match wf with
        | .map wk => wfDirsVal (mapGetD wk "models" (.map []))
        | _ => true) = true := by
    rcases hw : mapGet? kvs "workflows" with _ | v
    · refine ⟨[], by simp [mapGetD, hw, pyOrY, pyTruthy], rfl,
        by simp [specWorkflowsOf, hw], rfl⟩
    · have h3 := hwfc.2
      rw [hw] at h3
      have hd2 := hdirs.2
      rw [hw] at hd2
      cases v with
      | list wlS =>
          refine ⟨wlS, ?_, h3, by simp [specWorkflowsOf, hw], hd2⟩
          rw [mapGetD, hw]
          simp only [Option.getD]
          exact pyOrY_list_nil wlS
      | str s => exact absurd h3 (by simp)
      | null => exact absurd h3 (by simp)
      | bool b => exact absurd h3 (by simp)
      | int n => exact absurd h3 (by simp)
      | map m => exact absurd h3 (by simp)
  obtain ⟨mkS, hm1, hm2, hm3, hm4⟩ := hmodels
  obtain ⟨nlS, hn1, hn2, hn3⟩ := hnodes
  obtain ⟨wlS, hw1, hw2, hw3, hw4⟩ := hwfs
  rcases buildAvailableIds_corr mkS hm2 with ⟨avail, hav, hprop⟩
  have hmiss := availMissing_corr mkS avail hm3 hprop
  rcases buildAvailableCustomNodeIds_corr nlS hn2 with ⟨availCN, hcnb, hcnprop⟩
  unfold crossRefErrors
  rw [hm1, hn1, hw1]
  refine except_bind_ok.mpr ⟨avail, hav, ?_⟩
  refine except_bind_ok.mpr ⟨availCN, hcnb, ?_⟩
  refine except_bind_ok.mpr ⟨wlS, rfl, ?_⟩
  rw [wfsFold_corr avail availCN mkS nlS hmiss hcnprop wlS.enum []
    (fun p hp => List.all_eq_true.mp hw2 p.2 (snd_mem_of_mem_enum wlS p hp))
    (fun p hp => List.all_eq_true.mp hw4 p.2 (snd_mem_of_mem_enum wlS p hp))]
  rw [specCrossRefErrors_decompose, hm4, hn3, hw3]
  simp

/-- C6, witness: the exactness theorem applied to a concrete manifest with
one resolvable and one dangling model ref plus one dangling node ref, and
the concrete spec violation list. -/
theorem claim_C6_witness :
    crossRefErrors
      [("models", .map [("checkpoints", .list
          [.map [("id", .str "base"), ("urn", .str "u1")]])]),
       ("custom_nodes", .list [.map [("id", .str "n1"), ("url", .str "https://x/n1")]]),
       ("workflows", .list [.map [("name", .str "W"),
          ("models", .map [("checkpoints", .list
             [.map [("ref", .str "base")], .map [("ref", .str "missing")]])]),
          ("custom_nodes", .list [.map [("ref", .str "n2")]])]])]
    = .ok (specCrossRefErrors
      [("models", .map [("checkpoints", .list
          [.map [("id", .str "base"), ("urn", .str "u1")]])]),
       ("custom_nodes", .list [.map [("id", .str "n1"), ("url", .str "https://x/n1")]]),
       ("workflows", .list [.map [("name", .str "W"),
          ("models", .map [("checkpoints", .list
             [.map [("ref", .str "base")], .map [("ref", .str "missing")]])]),
          ("custom_nodes", .list [.map [("ref", .str "n2")]])]])])
  ∧ specCrossRefErrors
      [("models", .map [("checkpoints", .list
          [.map [("id", .str "base"), ("urn", .str "u1")]])]),
       ("custom_nodes", .list [.map [("id", .str "n1"), ("url", .str "https://x/n1")]]),
       ("workflows", .list [.map [("name", .str "W"),
          ("models", .map [("checkpoints", .list
             [.map [("ref", .str "base")], .map [("ref", .str "missing")]])]),
          ("custom_nodes", .list [.map [("ref", .str "n2")]])]])]
    = ["workflows[0].models.checkpoints[1] ref \x27missing\x27 not found in models.checkpoints",
       "workflows[0].custom_nodes[0] ref \x27n2\x27 not found in global custom_nodes"] :=
  ⟨claim_C6_crossref_exact _ (by decide) (by decide), by decide⟩

/-- A `REF:`-prefixed marker starts with `REF:`. -/
theorem pyStartswith_REF (r : String) : pyStartswith ("REF:" ++ r) "REF:" = true := by
  unfold pyStartswith
  rw [String.data_append, List.isPrefixOf_iff_prefix]
  exact List.prefix_append _ _

/-- Slicing a `REF:` marker after the prefix recovers the ref id. -/
theorem pySliceFrom_REF (r : String) : pySliceFrom ("REF:" ++ r) 4 = r := by
  unfold pySliceFrom
  rw [String.data_append]
  show String.mk (List.drop 4 (['R', 'E', 'F', ':'] ++ r.data)) = r
  show String.mk r.data = r
  cases r
  rfl

/-- A well-formed node's `url`, when present, is a non-empty string not
starting with `REF:`. -/
theorem wfNode_url_str (nk : List (String × Yaml)) (h : wfNode (.map nk) = true)
    (v : Yaml) (hu : mapGet? nk "url" = some v) :
    ∃ s : String, v = .str s ∧ s ≠ "" ∧ pyStartswith s "REF:" = false := by
  simp only [wfNode, Bool.and_eq_true] at h
  have h1 := h.2
  rw [hu] at h1
  cases v with
  | str s =>
      simp only [Bool.and_eq_true] at h1
      refine ⟨s, rfl, ?_, ?_⟩
      · simpa using h1.1
      · simpa using h1.2
  | null => exact absurd h1 (by simp)
  | bool b => exact absurd h1 (by simp)
  | int n => exact absurd h1 (by simp)
  | list l => exact absurd h1 (by simp)
  | map m => exact absurd h1 (by simp)

/-- Members of an upserted index come from the index or are the new
pair. -/
theorem upsertYAssoc_mem (s : List (Yaml × Yaml)) (k v : Yaml) (p : Yaml × Yaml)
    (h : p ∈ upsertYAssoc s k v) : p ∈ s ∨ p = (k, v) := by
  induction s with
  | nil => simp only [upsertYAssoc, List.mem_singleton] at h; exact Or.inr h
  | cons hd tl ih =>
      obtain ⟨k0, v0⟩ := hd
      simp only [upsertYAssoc] at h
      by_cases he : pyEq k0 k = true
      · rw [if_pos he] at h
        rcases List.mem_cons.mp h with h2 | h2
        · exact Or.inr h2
        · exact Or.inl (List.mem_cons_of_mem _ h2)
      · rw [if_neg he] at h
        rcases List.mem_cons.mp h with h2 | h2
        · exact Or.inl (h2 ▸ List.mem_cons_self _ _)
        · rcases ih h2 with h3 | h3
          · exact Or.inl (List.mem_cons_of_mem _ h3)
          · exact Or.inr h3

/-- A successful index lookup returns the value of some index pair. -/
theorem lookupYAssoc_mem (idx : List (Yaml × Yaml)) (k v : Yaml)
    (h : lookupYAssoc idx k = some v) : ∃ k2, (k2, v) ∈ idx := by
  induction idx with
  | nil => simp [lookupYAssoc] at h
  | cons hd tl ih =>
      obtain ⟨k0, v0⟩ := hd
      simp only [lookupYAssoc] at h
      by_cases he : pyEq k0 k = true
      · rw [if_pos he] at h
        injection h with hv
        exact ⟨k0, hv ▸ List.mem_cons_self _ _⟩
      · rw [if_neg he] at h
        rcases ih h with ⟨k2, hm⟩
        exact ⟨k2, List.mem_cons_of_mem _ hm⟩

/-- Every value of the custom-node index built from well-formed nodes is a
well-formed node. -/
theorem buildNodeIndex_vals :
    ∀ (cnl : List Yaml) (s0 : List (Yaml × Yaml)),
      cnl.all wfNode = true →
      (∀ p ∈ s0, wfNode p.2 = true) →
      ∀ index : List (Yaml × Yaml),
        ((cnl.foldlM (fun (acc : List (Yaml × Yaml)) (n : Yaml) =>
          match n with
          | .map nk =>
              let idv := mapGetD nk "id" .null
              if pyTruthy idv then
                if pyHashable idv then pure (upsertYAssoc acc idv n)
                else .error .typeError
              else pure acc
          | _ => pure acc) s0 : PyResult (List (Yaml × Yaml)))) = .ok index →
        ∀ p ∈ index, wfNode p.2 = true := by
  intro cnl
  induction cnl with
  | nil =>
      intro s0 _ hs0 index h
      simp only [List.foldlM_nil, Pure.pure, Except.pure, Except.ok.injEq] at h
      exact h ▸ hs0
  | cons n rest ih =>
      intro s0 hall hs0 index h
      simp only [List.all_cons, Bool.and_eq_true] at hall
      rw [List.foldlM_cons] at h
      rcases except_bind_ok.mp h with ⟨s1, h1, h2⟩
      have hs1 : ∀ p ∈ s1, wfNode p.2 = true := by
        cases n with
        | map nk =>
            simp only at h1
            by_cases ht : pyTruthy (mapGetD nk "id" .null) = true
            · rw [if_pos ht] at h1
              by_cases hh : pyHashable (mapGetD nk "id" .null) = true
              · rw [if_pos hh] at h1
                simp only [Pure.pure, Except.pure, Except.ok.injEq] at h1
                intro p hp
                rw [← h1] at hp
                rcases upsertYAssoc_mem s0 _ _ p hp with hm | hm
                · exact hs0 p hm
                · rw [hm]
                  exact hall.1
              · rw [if_neg hh] at h1
                exact absurd h1 (by simp)
            · rw [if_neg ht] at h1
              simp only [Pure.pure, Except.pure, Except.ok.injEq] at h1
              exact h1 ▸ hs0
        | str s =>
            simp only [Pure.pure, Except.pure, Except.ok.injEq] at h1
            exact h1 ▸ hs0
        | null =>
            simp only [Pure.pure, Except.pure, Except.ok.injEq] at h1
            exact h1 ▸ hs0
        | bool b =>
            simp only [Pure.pure, Except.pure, Except.ok.injEq] at h1
            exact h1 ▸ hs0
        | int n2 =>
            simp only [Pure.pure, Except.pure, Except.ok.injEq] at h1
            exact h1 ▸ hs0
        | list l =>
            simp only [Pure.pure, Except.pure, Except.ok.injEq] at h1
            exact h1 ▸ hs0
      exact ih s1 hall.2 hs1 index h2

/-- A well-formed node whose url is falsy has no `url` field at all. -/
theorem wfNode_url_none (nk : List (String × Yaml)) (h : wfNode (.map nk) = true)
    (hu : ¬ pyTruthy (mapGetD nk "url" .null) = true) : mapGet? nk "url" = none := by
  rcases hg : mapGet? nk "url" with _ | v
  · rfl
  · obtain ⟨s, rfl, hs, _⟩ := wfNode_url_str nk h v hg
    exact absurd (by simp [mapGetD, hg, pyTruthy, hs]) hu

/-- A well-formed node whose ref is falsy has no `ref` field at all. -/
theorem wfNode_ref_none (nk : List (String × Yaml)) (h : wfNode (.map nk) = true)
    (hr : ¬ pyTruthy (mapGetD nk "ref" .null) = true) : mapGet? nk "ref" = none := by
  rcases hg : mapGet? nk "ref" with _ | v
  · rfl
  · obtain ⟨r, rfl⟩ := wfNode_ref_str nk h v hg
    have hne : r ≠ "" := by
      simp only [wfNode, Bool.and_eq_true] at h
      have h1 := h.1.2
      simp only [wfOptField, hg] at h1
      simpa using h1
    exact absurd (by simp [mapGetD, hg, pyTruthy, hne]) hr

/-- A well-formed node with a truthy ref carries it as a string field. -/
theorem wfNode_ref_of_truthy (nk : List (String × Yaml)) (h : wfNode (.map nk) = true)
    (hr : pyTruthy (mapGetD nk "ref" .null) = true) :
    ∃ r : String, mapGet? nk "ref" = some (.str r) ∧
      mapGetD nk "ref" .null = .str r := by
  rcases hg : mapGet? nk "ref" with _ | v
  · rw [mapGetD, hg] at hr
    exact absurd hr (by simp [pyTruthy])
  · obtain ⟨r, rfl⟩ := wfNode_ref_str nk h v hg
    exact ⟨r, rfl, by simp [mapGetD, hg]⟩

/-- A well-formed node with a truthy url carries it as a non-empty string
field not starting with `REF:`. -/
theorem wfNode_url_of_truthy (nk : List (String × Yaml)) (h : wfNode (.map nk) = true)
    (hu : pyTruthy (mapGetD nk "url" .null) = true) :
    ∃ s : String, mapGet? nk "url" = some (.str s) ∧
      mapGetD nk "url" .null = .str s ∧ s ≠ "" ∧ pyStartswith s "REF:" = false := by
  rcases hg : mapGet? nk "url" with _ | v
  · rw [mapGetD, hg] at hu
    exact absurd hu (by simp [pyTruthy])
  · obtain ⟨s, rfl, hs, hnref⟩ := wfNode_url_str nk h v hg
    exact ⟨s, rfl, by simp [mapGetD, hg], hs, hnref⟩

/-- The global node-url collection equals the spec's url list (entries
without a url skipped), as string values. -/
theorem simGlobalNodeUrls_corr (cnl : List Yaml) (h : cnl.all wfNode = true) :
    simGlobalNodeUrls cnl = (specGlobalNodeUrls cnl).map Yaml.str := by
  induction cnl with
  | nil => rfl
  | cons n rest ih =>
      simp only [List.all_cons, Bool.and_eq_true] at h
      have ihr := ih h.2
      cases n with
      | map nk =>
          unfold simGlobalNodeUrls specGlobalNodeUrls
          unfold simGlobalNodeUrls specGlobalNodeUrls at ihr
          by_cases hu : pyTruthy (mapGetD nk "url" .null) = true
          · obtain ⟨s, hg, hgd, hs, _⟩ := wfNode_url_of_truthy nk h.1 hu
            simp only [List.filterMap_cons, hgd, hg]
            rw [ihr]
            simp [pyTruthy, hs]
          · have hg := wfNode_url_none nk h.1 hu
            simp only [List.filterMap_cons, if_neg hu, hg]
            exact ihr
      | str s => exact absurd h.1 (by simp [wfNode])
      | null => exact absurd h.1 (by simp [wfNode])
      | bool b => exact absurd h.1 (by simp [wfNode])
      | int n2 => exact absurd h.1 (by simp [wfNode])
      | list l => exact absurd h.1 (by simp [wfNode])

/-- Resolving the collected workflow nodes appends, per entry in
declaration order, exactly the spec's node url: its own url, or the url of
the indexed global entry its ref names; unmatched refs contribute
nothing. -/
theorem resolveCollect_fold (index : List (Yaml × Yaml))
    (hidx : ∀ p ∈ index, wfNode p.2 = true) :
    ∀ (nl : List Yaml) (acc : List Yaml),
      nl.all wfNode = true →
      ((collectWfNodes nl).foldlM (fun (acc : List Yaml) (node_url : Yaml) =>
        match node_url with
        | .str s =>
            if pyStartswith s "REF:" then
              let ref_id := pySliceFrom s 4
              match lookupYAssoc index (.str ref_id) with
              | some (.map nk) =>
                  let actual := mapGetD nk "url" .null
                  if pyTruthy actual then pure (acc ++ [Yaml.str (pyStr actual)])
                  else pure acc
              | some _ => pure acc
              | none => pure acc
            else pure (acc ++ [node_url])
        | _ => .error .attributeError) acc : PyResult (List Yaml))
      = .ok (acc ++ (nl.filterMap (specWfNodeUrl index)).map Yaml.str) := by
  intro nl
  induction nl with
  | nil => intro acc _; simp [collectWfNodes, Pure.pure, Except.pure]
  | cons n rest ih =>
      intro acc hall
      simp only [List.all_cons, Bool.and_eq_true] at hall
      cases n with
      | map nk =>
          by_cases hu : pyTruthy (mapGetD nk "url" .null) = true
          · obtain ⟨s, hg, hgd, hs, hnref⟩ := wfNode_url_of_truthy nk hall.1 hu
            have hc : collectWfNodes (Yaml.map nk :: rest)
                = Yaml.str s :: collectWfNodes rest := by
              unfold collectWfNodes
              simp only [List.filterMap_cons, hgd]
              simp [pyTruthy, hs]
            rw [hc, List.foldlM_cons]
            refine except_bind_ok.mpr ⟨acc ++ [Yaml.str s], ?_, ?_⟩
            · simp [hnref, Pure.pure, Except.pure]
            · rw [ih _ hall.2]
              have hspec : specWfNodeUrl index (.map nk) = some s := by
                simp [specWfNodeUrl, hg]
              simp [List.filterMap_cons, hspec, List.append_assoc]
          · have hgu := wfNode_url_none nk hall.1 hu
            by_cases hr : pyTruthy (mapGetD nk "ref" .null) = true
            · obtain ⟨r, hgr, hgrd⟩ := wfNode_ref_of_truthy nk hall.1 hr
              have hrne : r ≠ "" := by
                rw [hgrd] at hr
                simpa [pyTruthy] using hr
              have hc : collectWfNodes (Yaml.map nk :: rest)
                  = Yaml.str ("REF:" ++ r) :: collectWfNodes rest := by
                unfold collectWfNodes
                simp only [List.filterMap_cons, if_neg hu, hgrd]
                simp [pyTruthy, hrne, pyStr]
              rw [hc, List.foldlM_cons]
              rcases hlook : lookupYAssoc index (.str r) with _ | gv
              · refine except_bind_ok.mpr ⟨acc, ?_, ?_⟩
                · simp [pyStartswith_REF, pySliceFrom_REF, hlook, Pure.pure, Except.pure]
                · rw [ih _ hall.2]
                  have hspec : specWfNodeUrl index (.map nk) = none := by
                    simp [specWfNodeUrl, hgu, hgr, hlook]
                  simp [List.filterMap_cons, hspec]
              · have hwn : wfNode gv = true := by
                  rcases lookupYAssoc_mem index _ _ hlook with ⟨k2, hm⟩
                  exact hidx (k2, gv) hm
                cases gv with
                | map gk =>
                    by_cases hau : pyTruthy (mapGetD gk "url" .null) = true
                    · obtain ⟨u, hgu2, hgud, hus, _⟩ := wfNode_url_of_truthy gk hwn hau
                      refine except_bind_ok.mpr ⟨acc ++ [Yaml.str u], ?_, ?_⟩
                      · simp [pyStartswith_REF, pySliceFrom_REF, hlook, hgud,
                          pyTruthy, hus, pyStr, Pure.pure, Except.pure]
                      · rw [ih _ hall.2]
                        have hspec : specWfNodeUrl index (.map nk) = some u := by
                          simp [specWfNodeUrl, hgu, hgr, hlook, hgu2]
                        simp [List.filterMap_cons, hspec, List.append_assoc]
                    · have hgun := wfNode_url_none gk hwn hau
                      refine except_bind_ok.mpr ⟨acc, ?_, ?_⟩
                      · simp [pyStartswith_REF, pySliceFrom_REF, hlook, if_neg hau,
                          Pure.pure, Except.pure]
                      · rw [ih _ hall.2]
                        have hspec : specWfNodeUrl index (.map nk) = none := by
                          simp [specWfNodeUrl, hgu, hgr, hlook, hgun]
                        simp [List.filterMap_cons, hspec]
                | str s2 => exact absurd hwn (by simp [wfNode])
                | null => exact absurd hwn (by simp [wfNode])
                | bool b => exact absurd hwn (by simp [wfNode])
                | int n2 => exact absurd hwn (by simp [wfNode])
                | list l2 => exact absurd hwn (by simp [wfNode])
            · have hgrn := wfNode_ref_none nk hall.1 hr
              have hc : collectWfNodes (Yaml.map nk :: rest) = collectWfNodes rest := by
                unfold collectWfNodes
                simp only [List.filterMap_cons, if_neg hu]
                simp [mapGetD, hgrn, pyTruthy]
              rw [hc, ih _ hall.2]
              have hspec : specWfNodeUrl index (.map nk) = none := by
                simp [specWfNodeUrl, hgu, hgrn]
              simp [List.filterMap_cons, hspec]
      | str s => exact absurd hall.1 (by simp [wfNode])
      | null => exact absurd hall.1 (by simp [wfNode])
      | bool b => exact absurd hall.1 (by simp [wfNode])
      | int n2 => exact absurd hall.1 (by simp [wfNode])
      | list l2 => exact absurd hall.1 (by simp [wfNode])

/-- The modelled warning list holds exactly one `ref not found` line per
collected workflow node whose ref matches no indexed global id. -/
theorem nodeRefWarnings_corr (index : List (Yaml × Yaml)) :
    ∀ (nl : List Yaml), nl.all wfNode = true →
      nodeRefWarnings index (collectWfNodes nl) = nl.filterMap (specNodeWarn index) := by
  intro nl
  induction nl with
  | nil => intro _; rfl
  | cons n rest ih =>
      intro hall
      simp only [List.all_cons, Bool.and_eq_true] at hall
      have ihr := ih hall.2
      cases n with
      | map nk =>
          by_cases hu : pyTruthy (mapGetD nk "url" .null) = true
          · obtain ⟨s, hg, hgd, hs, hnref⟩ := wfNode_url_of_truthy nk hall.1 hu
            have hc : collectWfNodes (Yaml.map nk :: rest)
                = Yaml.str s :: collectWfNodes rest := by
              unfold collectWfNodes
              simp only [List.filterMap_cons, hgd]
              simp [pyTruthy, hs]
            rw [hc]
            unfold nodeRefWarnings
            unfold nodeRefWarnings at ihr
            simp only [List.filterMap_cons, hnref]
            rw [ihr]
            have hspec : specNodeWarn index (.map nk) = none := by
              simp [specNodeWarn, hu]
            simp [List.filterMap_cons, hspec]
          · have hgu := wfNode_url_none nk hall.1 hu
            by_cases hr : pyTruthy (mapGetD nk "ref" .null) = true
            · obtain ⟨r, hgr, hgrd⟩ := wfNode_ref_of_truthy nk hall.1 hr
              have hrne : r ≠ "" := by
                rw [hgrd] at hr
                simpa [pyTruthy] using hr
              have hc : collectWfNodes (Yaml.map nk :: rest)
                  = Yaml.str ("REF:" ++ r) :: collectWfNodes rest := by
                unfold collectWfNodes
                simp only [List.filterMap_cons, if_neg hu, hgrd]
                simp [pyTruthy, hrne, pyStr]
              rw [hc]
              rcases hlook : lookupYAssoc index (.str r) with _ | gv
              · have hL : nodeRefWarnings index
                    (Yaml.str ("REF:" ++ r) :: collectWfNodes rest)
                    = ("ref \x27" ++ r ++ "\x27 not found") ::
                      nodeRefWarnings index (collectWfNodes rest) := by
                  unfold nodeRefWarnings
                  rw [List.filterMap_cons]
                  simp [pyStartswith_REF, pySliceFrom_REF, hlook]
                rw [hL, ihr, List.filterMap_cons]
                have hspec : specNodeWarn index (.map nk)
                    = some ("ref \x27" ++ r ++ "\x27 not found") := by
                  simp [specNodeWarn, hu, hgr, hlook]
                rw [hspec]
              · have hL : nodeRefWarnings index
                    (Yaml.str ("REF:" ++ r) :: collectWfNodes rest)
                    = nodeRefWarnings index (collectWfNodes rest) := by
                  unfold nodeRefWarnings
                  rw [List.filterMap_cons]
                  simp [pyStartswith_REF, pySliceFrom_REF, hlook]
                rw [hL, ihr, List.filterMap_cons]
                have hspec : specNodeWarn index (.map nk) = none := by
                  simp [specNodeWarn, hu, hgr, hlook]
                rw [hspec]
            · have hgrn := wfNode_ref_none nk hall.1 hr
              have hc : collectWfNodes (Yaml.map nk :: rest) = collectWfNodes rest := by
                unfold collectWfNodes
                simp only [List.filterMap_cons, if_neg hu]
                simp [mapGetD, hgrn, pyTruthy]
              rw [hc, ihr]
              have hspec : specNodeWarn index (.map nk) = none := by
                simp [specNodeWarn, hu, hgrn]
              simp [List.filterMap_cons, hspec]
      | str s => exact absurd hall.1 (by simp [wfNode])
      | null => exact absurd hall.1 (by simp [wfNode])
      | bool b => exact absurd hall.1 (by simp [wfNode])
      | int n2 => exact absurd hall.1 (by simp [wfNode])
      | list l2 => exact absurd hall.1 (by simp [wfNode])

/-- C1. With a selected workflow the custom-node output is the global
entries' urls (url-less entries skipped) followed by, per workflow node in
declaration order, its own url or the url of the global entry its ref
names; a ref matching no global id contributes nothing and (in the
modelled warning pass) yields a `ref not found` warning. The concrete
n1/n2 scenario evaluates as the claim states. -/
theorem claim_C1_node_refs :
    (∀ cnl : List Yaml, cnl.all wfNode = true →
       simGlobalNodeUrls cnl = (specGlobalNodeUrls cnl).map Yaml.str)
  ∧ (∀ (cnl : List Yaml) (index : List (Yaml × Yaml)) (nl : List Yaml),
       cnl.all wfNode = true → nl.all wfNode = true →
       buildNodeIndex cnl = .ok index →
       resolveWfNodes index (collectWfNodes nl)
         = .ok ((nl.filterMap (specWfNodeUrl index)).map Yaml.str))
  ∧ (∀ (index : List (Yaml × Yaml)) (nl : List Yaml),
       nl.all wfNode = true →
       nodeRefWarnings index (collectWfNodes nl) = nl.filterMap (specNodeWarn index))
  ∧ simulate_yaml_processing (.map
      [("custom_nodes", .list [.map [("id", .str "n1"), ("url", .str "https://x/n1")]]),
       ("workflows", .list [.map [("name", .str "W"),
          ("custom_nodes", .list [.map [("ref", .str "n2")]])]])])
      (some "W")
    = .ok [("YAML_CUSTOM_NODE_URLS", "https://x/n1")]
  ∧ nodeRefWarnings
      [(Yaml.str "n1", Yaml.map [("id", Yaml.str "n1"), ("url", Yaml.str "https://x/n1")])]
      [Yaml.str "REF:n2"]
    = ["ref \x27n2\x27 not found"] := by
  refine ⟨simGlobalNodeUrls_corr, ?_, nodeRefWarnings_corr, rfl, rfl⟩
  intro cnl index nl hcnl hnl hbuild
  have hidx : ∀ p ∈ index, wfNode p.2 = true := by
    refine buildNodeIndex_vals cnl [] hcnl (by simp) index ?_
    unfold buildNodeIndex at hbuild
    exact hbuild
  unfold resolveWfNodes
  rw [resolveCollect_fold index hidx nl [] hnl]
  simp

/-- C1, witness: the three general conjuncts applied to the concrete
global node `n1` with a workflow referencing dangling `n2` and resolvable
`n1`. -/
theorem claim_C1_witness :
    simGlobalNodeUrls [Yaml.map [("id", Yaml.str "n1"), ("url", Yaml.str "https://x/n1")]]
      = (specGlobalNodeUrls
          [Yaml.map [("id", Yaml.str "n1"), ("url", Yaml.str "https://x/n1")]]).map Yaml.str
  ∧ resolveWfNodes
      [(Yaml.str "n1", Yaml.map [("id", Yaml.str "n1"), ("url", Yaml.str "https://x/n1")])]
      (collectWfNodes [Yaml.map [("ref", Yaml.str "n2")], Yaml.map [("ref", Yaml.str "n1")]])
    = .ok (([Yaml.map [("ref", Yaml.str "n2")],
             Yaml.map [("ref", Yaml.str "n1")]].filterMap
        (specWfNodeUrl
          [(Yaml.str "n1",
            Yaml.map [("id", Yaml.str "n1"), ("url", Yaml.str "https://x/n1")])])).map
        Yaml.str)
  ∧ nodeRefWarnings
      [(Yaml.str "n1", Yaml.map [("id", Yaml.str "n1"), ("url", Yaml.str "https://x/n1")])]
      (collectWfNodes [Yaml.map [("ref", Yaml.str "n2")]])
    = [Yaml.map [("ref", Yaml.str "n2")]].filterMap
        (specNodeWarn
          [(Yaml.str "n1",
            Yaml.map [("id", Yaml.str "n1"), ("url", Yaml.str "https://x/n1")])]) :=
  ⟨claim_C1_node_refs.1 _ (by decide),
   claim_C1_node_refs.2.1
     [Yaml.map [("id", Yaml.str "n1"), ("url", Yaml.str "https://x/n1")]]
     [(Yaml.str "n1", Yaml.map [("id", Yaml.str "n1"), ("url", Yaml.str "https://x/n1")])]
     [Yaml.map [("ref", Yaml.str "n2")], Yaml.map [("ref", Yaml.str "n1")]]
     (by decide) (by decide) rfl,
   claim_C1_node_refs.2.2.1
     [(Yaml.str "n1", Yaml.map [("id", Yaml.str "n1"), ("url", Yaml.str "https://x/n1")])]
     [Yaml.map [("ref", Yaml.str "n2")]] (by decide)⟩
